import Mathlib

/-!
Verification of the ztpbootstrap web panel (src/webui/app.py, src/webui/security_utils.py).

Shallow embedding of the two core subsystems:

* the script registry / activation engine (`list_bootstrap_scripts`,
  `set_active_script`, `rename_bootstrap_script`, `delete_bootstrap_script`,
  `cleanup_old_backups`), modelled over an explicit directory state
  `FS = List (String × Entry)` where an entry is a regular file (with
  modification time and content) or a symlink (storing its target name,
  interpreted relative to the same directory);

* the access-log session reconstructor (`parse_nginx_access_log`), modelled
  as a pure fold over the list of log lines with explicit connection map,
  processed-line ledger and current wall-clock time.

Machine conventions: timestamps are `Int` (epoch seconds; `time.time()` and
`datetime.timestamp()` return floats, but every comparison the claims touch
is on whole seconds); Python `dict`s and `set`s become insertion-ordered
association lists / duplicate-free lists, with the arbitrary iteration order
of a Python set realized as the insertion order of the list.  `Path.resolve`
on a symlink cycle raises in the source (caught by the surrounding
`except` blocks); here resolution returns `none` in that case, via a fuel
bound of one more than the number of directory entries, which suffices for
every cycle-free chain.
-/

namespace ZtpBootstrap

/-! ## Character/string primitives

All string predicates are written over `String.data` so that concrete
instances reduce inside the kernel. -/

/-- Python regex `\s` (whitespace class used by `\S` and `str.split()/strip()`). -/
def isWs (c : Char) : Bool :=
  c = ' ' ∨ c = '\t' ∨ c = '\n' ∨ c = '\x0d' ∨ c = '\x0c' ∨ c = '\x0b'

/-- The character class `[a-zA-Z0-9_.-]` of the script-name regex. -/
def scriptChar (c : Char) : Bool :=
  (('a' ≤ c ∧ c ≤ 'z') ∨ ('A' ≤ c ∧ c ≤ 'Z') ∨ ('0' ≤ c ∧ c ≤ '9')
    ∨ c = '_' ∨ c = '.' ∨ c = '-')

/-- `pat` is a prefix of `s` (char-list version). -/
def prefB : List Char → List Char → Bool
  | [], _ => true
  | _ :: _, [] => false
  | p :: ps, c :: cs => p = c && prefB ps cs

/-- `s.startswith pat`. -/
def startsW (s pat : String) : Bool := prefB pat.data s.data

/-- `s.endswith pat`. -/
def endsW (s pat : String) : Bool := prefB pat.data.reverse s.data.reverse

/-- Substring containment, Python's `pat in s` (for nonempty `pat`). -/
def containsL (pat : List Char) : List Char → Bool
  | [] => prefB pat []
  | c :: cs => prefB pat (c :: cs) || containsL pat cs

/-- `pat in s`. -/
def containsSub (s pat : String) : Bool := containsL pat.data s.data

/-- `str.strip()` (drop leading and trailing whitespace). -/
def stripStr (s : String) : String :=
  ⟨((s.data.dropWhile isWs).reverse.dropWhile isWs).reverse⟩

/-- `Path(s).name`: the part after the last `/`, with trailing slashes dropped. -/
def lastComponent (s : String) : String :=
  ⟨((s.data.reverse.dropWhile (· = '/')).takeWhile (· ≠ '/')).reverse⟩

/-- First whitespace-separated token, `s.split()[0]`; `none` when the split
list is empty (the `IndexError` is caught by the caller's `except`). -/
def firstTok (s : String) : Option String :=
  let t := (s.data.dropWhile isWs).takeWhile (fun c => ¬ isWs c)
  if t = [] then none else some ⟨t⟩

/-! ## Filename validation (src/webui/security_utils.py) -/

/-- The regex `^bootstrap[a-zA-Z0-9_.-]*\.py$` of `sanitize_filename`.
Equivalently: starts with `bootstrap`, ends with `.py`, is at least 12
characters long, and every character from position 9 on is in the class
(the trailing `.py` itself lies in the class). -/
def matchesScriptRe (n : String) : Bool :=
  startsW n "bootstrap" && endsW n ".py" && decide (12 ≤ n.data.length)
    && (n.data.drop 9).all scriptChar

/-- `sanitize_filename` (security_utils.py lines 11-41): strip path
components, drop NUL bytes, check the script-name regex, reject dangerous
patterns. -/
def sanitize_filename (filename : String) : Option String :=
  if filename = "" then none
  else
    let f : String := lastComponent filename
    let f : String := ⟨f.data.filter (· ≠ '\x00')⟩
    if ¬ matchesScriptRe f then none
    else if containsSub f ".." || containsSub f "/" || containsSub f "\\"
        || containsSub f "\x00" then none
    else some f

/-- `validate_filename_for_api` (security_utils.py lines 84-110). -/
def validate_filename_for_api (filename : String) : Option String :=
  if filename = "" then none
  else if ¬ endsW filename ".py" then none
  else sanitize_filename filename

/-! ## Directory state -/

/-- One directory entry: a regular file (with integral mtime and content) or
a symlink storing its target name (targets are created relative, within the
same directory: `target.symlink_to(script_path.name)`). -/
inductive Entry where
  | regular (mtime : Nat) (content : String)
  | symlink (target : String)
deriving DecidableEq, Repr

/-- The registry directory: an insertion-ordered association list of file
names to entries. -/
abbrev FS := List (String × Entry)

/-- `fs.lookup n`: the entry stored under name `n` (no symlink following). -/
def FS.lookup : FS → String → Option Entry
  | [], _ => none
  | p :: fs, n => if p.1 = n then some p.2 else FS.lookup fs n

/-- Remove the entry named `n` (`Path.unlink`). -/
def FS.erase : FS → String → FS
  | [], _ => []
  | p :: fs, n => if p.1 = n then FS.erase fs n else p :: FS.erase fs n

/-- Create or overwrite the entry named `n`: replace in place if present
(keeping directory order), else append. -/
def FS.insert : FS → String → Entry → FS
  | [], n, e => [(n, e)]
  | p :: fs, n, e => if p.1 = n then (n, e) :: fs else p :: FS.insert fs n e

/-- `old.rename(new)`: move the entry, overwriting any entry at `new`. -/
def FS.ren (fs : FS) (old new : String) : FS :=
  match fs.lookup old with
  | none => fs
  | some e => (fs.erase old).insert new e

/-- Well-formed directory: names are distinct. -/
def FS.WF (fs : FS) : Prop := (fs.map Prod.fst).Nodup

instance (fs : FS) : Decidable (FS.WF fs) := by
  unfold FS.WF
  infer_instance

/-- Fuel-bounded symlink resolution.  Following Python's `Path.resolve`:
a regular file or a nonexistent name resolves to itself; a symlink chases
its target; running out of fuel models the exception raised on a symlink
cycle. -/
def resolveN (fs : FS) : Nat → String → Option String
  | 0, _ => none
  | fuel + 1, n =>
    match fs.lookup n with
    | some (.symlink t) => resolveN fs fuel t
    | _ => some n

/-- `(dir / n).resolve()`: fuel one larger than the directory size is enough
for every cycle-free chain; a cycle exhausts it and yields `none` (the
raised `RuntimeError`/`OSError`). -/
def resolveName (fs : FS) (n : String) : Option String :=
  resolveN fs (fs.length + 1) n

/-- `(dir / n).exists()` — follows symlinks; `False` on resolution errors. -/
def fsExists (fs : FS) (n : String) : Bool :=
  match resolveName fs n with
  | some m =>
    match fs.lookup m with
    | some (.regular _ _) => true
    | _ => false
  | none => false

/-- `(dir / n).stat()` — follows symlinks; `(st_mtime, st_size)`, `none` when
the call raises `OSError`. -/
def statEntry (fs : FS) (n : String) : Option (Nat × Nat) :=
  match resolveName fs n with
  | some m =>
    match fs.lookup m with
    | some (.regular mt c) => some (mt, c.data.length)
    | _ => none
  | none => none

/-- `(dir / n).is_symlink()`. -/
def isSymlinkB (fs : FS) (n : String) : Bool :=
  match fs.lookup n with
  | some (.symlink _) => true
  | _ => false

/-! ## Glob patterns -/

/-- `glob('bootstrap*.py')`: starts with `bootstrap`, ends with `.py`, with
a (possibly empty) middle — so at least 12 characters. -/
def scriptGlob (n : String) : Bool :=
  startsW n "bootstrap" && endsW n ".py" && decide (12 ≤ n.data.length)

/-- `glob('bootstrap_backup_*.py')`. -/
def backupGlob (n : String) : Bool :=
  startsW n "bootstrap_backup_" && endsW n ".py" && decide (20 ≤ n.data.length)

/-- `name.startswith('bootstrap_backup_')` (the listing's backup skip). -/
def backupNamed (n : String) : Bool := startsW n "bootstrap_backup_"

/-! ## cleanup_old_backups (app.py lines 618-643) -/

/-- Stable descending insertion by mtime: a later element is placed after
earlier elements with the same key, matching Python's stable
`sort(key=mtime, reverse=True)` (which keeps the original order of ties). -/
def insMt (x : Nat × String) : List (Nat × String) → List (Nat × String)
  | [] => [x]
  | y :: ys => if y.1 < x.1 then x :: y :: ys else y :: insMt x ys

/-- `backup_files.sort(key=lambda x: x[0], reverse=True)`. -/
def sortMtDesc : List (Nat × String) → List (Nat × String)
  | [] => []
  | x :: xs => insMt x (sortMtDesc xs)

/-- The `(st_mtime, file)` pairs collected from `glob('bootstrap_backup_*.py')`
in directory order; entries whose `stat` raises are skipped (`continue`). -/
def backupFiles (fs : FS) : List (Nat × String) :=
  fs.filterMap (fun p =>
    if backupGlob p.1 then (statEntry fs p.1).map (fun st => (st.1, p.1)) else none)

/-- `cleanup_old_backups`: keep the 5 most recent backup files (by mtime,
descending), delete the rest. -/
def cleanup_old_backups (fs : FS) : FS :=
  let sorted := sortMtDesc (backupFiles fs)
  if 5 < sorted.length then
    let doomed := (sorted.drop 5).map (·.2)
    fs.filter (fun p => ¬ p.1 ∈ doomed)
  else fs

/-! ## set_active_script (app.py lines 805-887) -/

/-- The backup name `f'bootstrap_backup_{int(target.stat().st_mtime)}.py'`. -/
def backupName (m : Nat) : String :=
  "bootstrap_backup_" ++ toString m ++ ".py"

/-- `set_active_script(filename)`: `none` models any error response
(validation failure, 404, failed copy, `shutil.SameFileError` when copying
`bootstrap.py` onto itself, `FileExistsError` from `symlink_to`). -/
def set_active_script (fs : FS) (filename : String) : Option FS :=
  match validate_filename_for_api filename with
  | none => none
  | some s =>
    if ¬ (fsExists fs s && endsW s ".py") then none
    else if s = "bootstrap.py" then
      -- promote the symlink target into regular-file pointer content
      match fs.lookup "bootstrap.py" with
      | some (.symlink _) =>
        match resolveName fs "bootstrap.py" with
        | none => none
        | some src =>
          match fs.lookup src with
          | some (.regular m c) =>
            -- unlink the symlink, then copy2(source, target)
            some ((fs.erase "bootstrap.py").insert "bootstrap.py" (.regular m c))
          | _ => none  -- symlink target not found
      | some (.regular _ _) => none  -- copy2 onto itself: SameFileError
      | none => none
    else
      -- for other scripts, create a symlink at bootstrap.py
      let fs1 : FS :=
        if fsExists fs "bootstrap.py" && isSymlinkB fs "bootstrap.py" then
          fs.erase "bootstrap.py"
        else if fsExists fs "bootstrap.py" then
          match fs.lookup "bootstrap.py" with
          | some (.regular m _) =>
            cleanup_old_backups (fs.ren "bootstrap.py" (backupName m))
          | _ => fs
        else fs
      match fs1.lookup "bootstrap.py" with
      | some _ => none  -- symlink_to raises FileExistsError
      | none => some (fs1.insert "bootstrap.py" (.symlink s))

/-! ## delete_bootstrap_script (app.py lines 971-1019) -/

inductive ApiErr where
  | invalidName | notFound | conflict | activeLocked | nameRequired
deriving DecidableEq, Repr

/-- `delete_bootstrap_script(filename)`.  Every `.error` is returned before
the `unlink`, so an error leaves the directory unchanged. -/
def delete_bootstrap_script (fs : FS) (filename : String) : Except ApiErr FS :=
  match validate_filename_for_api filename with
  | none => .error .invalidName
  | some s =>
    if ¬ (fsExists fs s && endsW s ".py") then .error .notFound
    else if s = "bootstrap.py"
        && (match fs.lookup "bootstrap.py" with
            | some (.regular _ _) => true
            | _ => false) then
      -- bootstrap.py exists and is not a symlink: it is the active content
      .error .activeLocked
    else if fsExists fs "bootstrap.py" then
      -- resolution errors inside the try are swallowed (pass)
      match resolveName fs "bootstrap.py", resolveName fs s with
      | some a, some b =>
        if a = b then .error .activeLocked else .ok (fs.erase s)
      | _, _ => .ok (fs.erase s)
    else .ok (fs.erase s)

/-! ## rename_bootstrap_script (app.py lines 889-969) -/

/-- The tail of `rename_bootstrap_script` after the new name has been
normalized: conflict check, active-script check, then the rename. -/
def renameAfter (fs : FS) (s sn : String) : Except ApiErr (FS × String) :=
  if fsExists fs sn && ¬ sn = s then .error .conflict
  else if fsExists fs "bootstrap.py" then
    match resolveName fs "bootstrap.py", resolveName fs s with
    | some a, some b =>
      if a = b then .error .activeLocked else .ok (fs.ren s sn, sn)
    | _, _ => .ok (fs.ren s sn, sn)
  else .ok (fs.ren s sn, sn)

/-- `rename_bootstrap_script(filename, new_name)`: on success returns the new
directory state and the final (normalized) new name. -/
def rename_bootstrap_script (fs : FS) (filename newNameRaw : String) :
    Except ApiErr (FS × String) :=
  match validate_filename_for_api filename with
  | none => .error .invalidName
  | some s =>
    if ¬ (fsExists fs s && endsW s ".py") then .error .notFound
    else
      let newName := stripStr newNameRaw
      if newName = "" then .error .nameRequired
      else
        match sanitize_filename newName with
        | some sn => renameAfter fs s sn
        | none =>
          -- sanitization failed: require the .py extension, then auto-prefix
          if ¬ endsW newName ".py" then .error .invalidName
          else
            let newName2 :=
              if ¬ startsW newName "bootstrap" then "bootstrap_" ++ newName
              else newName
            match sanitize_filename newName2 with
            | none => .error .invalidName
            | some sn => renameAfter fs s sn

/-! ## list_bootstrap_scripts (app.py lines 645-754) -/

/-- One row of the listing response. -/
structure Row where
  name : String
  size : Nat
  modified : Nat
  active : Bool
deriving DecidableEq, Repr

/-- `active_script`: the name the pointer resolves to (lines 653-665);
`none` when `bootstrap.py` does not exist.  On a resolution error the
`except` falls back to the literal name `bootstrap.py`. -/
def activeScript (fs : FS) : Option String :=
  if fsExists fs "bootstrap.py" then
    if isSymlinkB fs "bootstrap.py" then
      match resolveName fs "bootstrap.py" with
      | some r => some r
      | none => some "bootstrap.py"
    else some "bootstrap.py"
  else none

/-- `active_resolved_name` (lines 667-677): re-resolve the active name from
the directory; errors and nonexistence leave it `None`. -/
def activeResolvedName (fs : FS) : Option String :=
  match activeScript fs with
  | none => none
  | some a => if fsExists fs a then resolveName fs a else none

/-- The `is_active` flag of the main loop (lines 695-702). -/
def rowActiveFlag (arn aS : Option String) (n : String) : Bool :=
  match arn with
  | some a => n = a
  | none =>
    match aS with
    | some a => n = a
    | none => false

/-- One iteration of the `glob('bootstrap*.py')` loop (lines 679-718):
skip backups, skip symlink self-loops and resolution errors, compute the
flag, skip entries whose `stat` raises. -/
def rowOf (fs : FS) (aS arn : Option String) (n : String) (e : Entry) :
    Option Row :=
  if ¬ scriptGlob n then none
  else if backupNamed n then none
  else
    let keep : Bool :=
      match e with
      | .regular _ _ => true
      | .symlink _ =>
        match resolveName fs n with
        | some m => ¬ m = n
        | none => false
    if ¬ keep then none
    else
      match statEntry fs n with
      | none => none
      | some st => some ⟨n, st.2, st.1, rowActiveFlag arn aS n⟩

/-- The fallback `is_active` of the always-include-bootstrap.py block
(lines 725-737). -/
def extraActiveFlag (fs : FS) (aS arn : Option String) : Bool :=
  match arn with
  | some a =>
    if isSymlinkB fs "bootstrap.py" then
      match resolveName fs "bootstrap.py" with
      | some r => r = a
      | none => false
    else "bootstrap.py" = a
  | none =>
    match aS with
    | some a => "bootstrap.py" = a
    | none => false

/-- Code-point lexicographic `<=` on strings, Python's string comparison. -/
def lexLe : List Char → List Char → Bool
  | [], _ => true
  | _ :: _, [] => false
  | a :: as, b :: bs =>
    if a = b then lexLe as bs else decide (a.toNat < b.toNat)

/-- Stable ascending comparison on the sort key
`(not active, name)` (line 752): active rows first, then by name. -/
def rowKeyLe (a b : Row) : Bool :=
  if a.active = b.active then lexLe a.name.data b.name.data else a.active

/-- Stable insertion sort with `rowKeyLe` (Python's stable `list.sort`). -/
def insRow (x : Row) : List Row → List Row
  | [] => [x]
  | y :: ys => if rowKeyLe x y then x :: y :: ys else y :: insRow x ys

def sortRows : List Row → List Row
  | [] => []
  | x :: xs => insRow x (sortRows xs)

/-- `list_bootstrap_scripts`: the rows of the response, in response order. -/
def list_bootstrap_scripts (fs : FS) : List Row :=
  let aS := activeScript fs
  let arn := activeResolvedName fs
  let rows := fs.filterMap (fun p => rowOf fs aS arn p.1 p.2)
  let rows :=
    if fsExists fs "bootstrap.py" && rows.all (fun r => ¬ r.name = "bootstrap.py")
    then
      match statEntry fs "bootstrap.py" with
      | some st => rows ++ [⟨"bootstrap.py", st.2, st.1, extraActiveFlag fs aS arn⟩]
      | none => rows
    else rows
  sortRows rows

/-- Names of the rows flagged active. -/
def activeNames (fs : FS) : List String :=
  ((list_bootstrap_scripts fs).filter (·.active)).map (·.name)

/-! ## Access-log line grammar (app.py line 1285)

The regex
`^(\S+) - - \[([^\]]+)\] "(\S+) (\S+) ([^"]+)" (\d+) (\S+) "([^"]*)" "([^"]*)"`
is deterministic: each `\S+`/`\d+`/`[^x]+` group is a maximal run that cannot
cross its following literal, so maximal munch plus a literal check is exactly
the regex's backtracking behaviour. -/

structure LogFields where
  ip : String
  tsStr : String
  method : String
  path : String
  proto : String
  status : Nat
  sizeStr : String
  referer : String
  ua : String
deriving DecidableEq, Repr

/-- Maximal run of characters satisfying `p`, requiring at least one. -/
def take1 (p : Char → Bool) (s : List Char) : Option (List Char × List Char) :=
  match s.takeWhile p with
  | [] => none
  | t => some (t, s.drop t.length)

/-- Maximal (possibly empty) run. -/
def take0 (p : Char → Bool) (s : List Char) : List Char × List Char :=
  (s.takeWhile p, s.drop (s.takeWhile p).length)

/-- Strip an expected literal. -/
def lit (pat : List Char) (s : List Char) : Option (List Char) :=
  if prefB pat s then some (s.drop pat.length) else none

def digitVal (c : Char) : Nat := c.toNat - '0'.toNat

def natOfDigits (ds : List Char) : Nat :=
  ds.foldl (fun a c => a * 10 + digitVal c) 0

/-- `re.match` of the access-log regex against the raw line (`re.match`
anchors at the start only; trailing characters are allowed). -/
def parseLogLine (line : String) : Option LogFields :=
  match take1 (fun c => ¬ isWs c) line.data with
  | none => none
  | some (ip, s) =>
  match lit " - - [".data s with
  | none => none
  | some s =>
  match take1 (fun c => ¬ c = ']') s with
  | none => none
  | some (ts, s) =>
  match lit "] \"".data s with
  | none => none
  | some s =>
  match take1 (fun c => ¬ isWs c) s with
  | none => none
  | some (method, s) =>
  match lit " ".data s with
  | none => none
  | some s =>
  match take1 (fun c => ¬ isWs c) s with
  | none => none
  | some (path, s) =>
  match lit " ".data s with
  | none => none
  | some s =>
  match take1 (fun c => ¬ c = '"') s with
  | none => none
  | some (proto, s) =>
  match lit "\" ".data s with
  | none => none
  | some s =>
  match take1 Char.isDigit s with
  | none => none
  | some (st, s) =>
  match lit " ".data s with
  | none => none
  | some s =>
  match take1 (fun c => ¬ isWs c) s with
  | none => none
  | some (sz, s) =>
  match lit " \"".data s with
  | none => none
  | some s =>
  match take0 (fun c => ¬ c = '"') s with
  | (ref, s) =>
  match lit "\" \"".data s with
  | none => none
  | some s =>
  match take0 (fun c => ¬ c = '"') s with
  | (ua, s) =>
  match lit "\"".data s with
  | none => none
  | some _ =>
    some ⟨⟨ip⟩, ⟨ts⟩, ⟨method⟩, ⟨path⟩, ⟨proto⟩, natOfDigits st, ⟨sz⟩,
      ⟨ref⟩, ⟨ua⟩⟩

/-! ## Timestamp parsing (app.py lines 1320-1324)

`datetime.strptime(timestamp_str.split()[0], '%d/%b/%Y:%H:%M:%S').timestamp()`
for a naive datetime in a UTC container: epoch seconds of the civil
date/time.  `%d`/`%H`/`%M`/`%S` accept one or two digits, `%Y` exactly four,
`%b` a case-insensitive month abbreviation; `datetime` then validates the
day against the month and rejects second values above 59. -/

def monthNum (m : List Char) : Option Nat :=
  match (⟨m.map Char.toLower⟩ : String) with
  | "jan" => some 1 | "feb" => some 2 | "mar" => some 3 | "apr" => some 4
  | "may" => some 5 | "jun" => some 6 | "jul" => some 7 | "aug" => some 8
  | "sep" => some 9 | "oct" => some 10 | "nov" => some 11 | "dec" => some 12
  | _ => none

def isLeap (y : Int) : Bool := y % 4 = 0 && (¬ y % 100 = 0 || y % 400 = 0)

def daysInMonth (y : Int) (m : Nat) : Nat :=
  if m = 2 then (if isLeap y then 29 else 28)
  else if m = 4 ∨ m = 6 ∨ m = 9 ∨ m = 11 then 30
  else 31

/-- Days since 1970-01-01 of a civil date (Hinnant's `days_from_civil`,
using truncating `Int` division as in C). -/
def daysFromCivil (y : Int) (m d : Nat) : Int :=
  let y : Int := if m ≤ 2 then y - 1 else y
  let era : Int := (if 0 ≤ y then y else y - 399) / 400
  let yoe : Int := y - era * 400
  let mp : Int := if 2 < m then (m : Int) - 3 else (m : Int) + 9
  let doy : Int := (153 * mp + 2) / 5 + (d : Int) - 1
  let doe : Int := yoe * 365 + yoe / 4 - yoe / 100 + doy
  era * 146097 + doe - 719468

/-- Validate the parsed fields (the range checks of `strptime` and the
`datetime` constructor) and convert to epoch seconds. -/
def mkEpoch (dd mon yy hh mi ss : List Char) : Option Int :=
  match monthNum mon with
  | none => none
  | some m =>
    let d := natOfDigits dd
    let y : Int := (natOfDigits yy : Nat)
    let h := natOfDigits hh
    let mnt := natOfDigits mi
    let sec := natOfDigits ss
    if d = 0 ∨ daysInMonth y m < d ∨ 23 < h ∨ 59 < mnt ∨ 59 < sec then none
    else some (daysFromCivil y m d * 86400 + h * 3600 + mnt * 60 + sec)

/-- Parse `'%d/%b/%Y:%H:%M:%S'` and convert to epoch seconds. -/
def tsParse (str : String) : Option Int :=
  match take1 Char.isDigit str.data with
  | none => none
  | some (dd, s) =>
  if 2 < dd.length then none else
  match lit "/".data s with
  | none => none
  | some s =>
  match take0 (fun c => ¬ c = '/') s with
  | (mon, s) =>
  match lit "/".data s with
  | none => none
  | some s =>
  match take1 Char.isDigit s with
  | none => none
  | some (yy, s) =>
  if ¬ yy.length = 4 then none else
  match lit ":".data s with
  | none => none
  | some s =>
  match take1 Char.isDigit s with
  | none => none
  | some (hh, s) =>
  if 2 < hh.length then none else
  match lit ":".data s with
  | none => none
  | some s =>
  match take1 Char.isDigit s with
  | none => none
  | some (mi, s) =>
  if 2 < mi.length then none else
  match lit ":".data s with
  | none => none
  | some s =>
  match take1 Char.isDigit s with
  | none => none
  | some (ss, s) =>
  if 2 < ss.length then none else
  if ¬ s = [] then none else
  mkEpoch dd mon yy hh mi ss

/-! ## Device connections (app.py lines 1326-1373) -/

structure Session where
  start : Int
  stop : Int   -- the Python dict key 'end' ('end' is reserved in Lean)
  requests : Nat
deriving DecidableEq, Repr

structure Device where
  ip : String
  firstSeen : Int
  lastSeen : Int
  bootstrapDownloaded : Bool
  bootstrapDownloadTime : Option Int
  sessionStart : Int
  sessionEnd : Int
  totalRequests : Nat
  userAgent : String
  sessions : List Session
deriving DecidableEq, Repr

abbrev Conns := List (String × Device)

def lookupC : Conns → String → Option Device
  | [], _ => none
  | p :: cs, ip => if p.1 = ip then some p.2 else lookupC cs ip

/-- Store under `ip`, dict-style: replace in place, else append. -/
def insertC : Conns → String → Device → Conns
  | [], ip, d => [(ip, d)]
  | p :: cs, ip, d => if p.1 = ip then (ip, d) :: cs else p :: insertC cs ip d

/-- Session folding and 50-session truncation (lines 1351-1373). -/
def updateSessions (sessions : List Session) (t : Int) : List Session :=
  let s :=
    match sessions.getLast? with
    | some last =>
      if t - last.stop < 300 then
        sessions.dropLast ++ [⟨last.start, t, last.requests + 1⟩]
      else sessions ++ [⟨t, t, 1⟩]
    | none => [⟨t, t, 1⟩]
  if 50 < s.length then s.drop (s.length - 50) else s

/-- Create-or-update of the device entry for one qualifying line
(lines 1326-1373).  `bootstrap_download_time`'s falsy test is modelled as
the `none` test (an epoch-0 download time does not arise). -/
def updateDevice (conns : Conns) (p : LogFields) (t : Int) : Conns :=
  let d0 :=
    match lookupC conns p.ip with
    | some d => d
    | none => ⟨p.ip, t, t, false, none, t, t, 0, p.ua, []⟩
  let d1 := { d0 with lastSeen := t, totalRequests := d0.totalRequests + 1 }
  let d2 :=
    if (p.path = "/bootstrap.py" ∨ (p.path = "/" ∧ p.status = 200))
        ∧ p.status = 200 then
      { d1 with
        bootstrapDownloaded := true
        bootstrapDownloadTime :=
          match d1.bootstrapDownloadTime with
          | none => some t
          | some bt => if bt < t then some t else some bt }
    else d1
  let d3 := { d2 with sessions := updateSessions d2.sessions t }
  insertC conns p.ip d3

/-! ## Relevance filter (app.py lines 1297-1317) -/

def isBrowserUA (ua : String) : Bool :=
  ¬ ua = "" && (containsSub ua "Mozilla" || containsSub ua "Gecko"
    || containsSub ua "Chrome" || containsSub ua "Safari")

def isAristaUA (ua : String) : Bool :=
  ¬ ua = "" && (containsSub ua "Arista" || containsSub ua "EOS"
    || containsSub ua "ZTP")

def isBootstrapPath (p : String) : Bool := p = "/bootstrap.py" || p = "/"

/-- The filtered-out condition of lines 1309-1314. -/
def isExcluded (p : LogFields) : Bool :=
  ¬ isAristaUA p.ua && ¬ isBootstrapPath p.path
    && (p.path = "/health" || p.path = "/ui" || p.path = "/api"
      || startsW p.path "/ui/" || startsW p.path "/api/"
      || containsSub p.path "/api/"
      || (isBrowserUA p.ua && ¬ isBootstrapPath p.path))

/-! ## parse_nginx_access_log (app.py lines 1248-1400) -/

/-- Add to the new-processed set (insertion-ordered, duplicate-free). -/
def insNew (l : List String) (s : String) : List String :=
  if s ∈ l then l else l ++ [s]

/-- One iteration of the per-line loop (lines 1276-1376) over the state
`(connections, new_processed_lines)`, with `processed` the ledger loaded at
the start of the pass.  A line whose timestamp fails to parse is skipped
without being marked processed (`continue` at line 1324). -/
def stepLine (processed : List String) (acc : Conns × List String)
    (line : String) : Conns × List String :=
  let ls := stripStr line
  if ls ∈ processed then (acc.1, insNew acc.2 ls)
  else
    match parseLogLine line with
    | none => (acc.1, insNew acc.2 ls)
    | some p =>
      if isExcluded p then (acc.1, insNew acc.2 ls)
      else
        match (firstTok p.tsStr).bind tsParse with
        | none => acc
        | some t => (updateDevice acc.1 p t, insNew acc.2 ls)

/-- Python-set union as list union keeping the old ledger's order first. -/
def unionL (old new : List String) : List String :=
  old ++ new.filter (fun s => ¬ s ∈ old)

/-- Garbage collection (lines 1391-1394): keep devices seen within 24 hours,
by the strict comparison `last_seen > current_time - 86400`. -/
def gcConnections (conns : Conns) (now : Int) : Conns :=
  conns.filter (fun p => now - 86400 < p.2.lastSeen)

/-- One full Reconstructor pass over the given raw log lines, starting from
the persisted connection map and ledger, at wall-clock `now`; returns the
map and ledger that are persisted and returned (lines 1248-1397).  The
2000-entry ledger truncation `set(list(all_processed)[-2000:])` keeps the
last 2000 entries of the model's insertion order (the Python set's
iteration order is arbitrary). -/
def parse_nginx_access_log (lines : List String) (conns0 : Conns)
    (processed : List String) (now : Int) : Conns × List String :=
  let recent := if 1000 < lines.length then lines.drop (lines.length - 1000)
    else lines
  let r := recent.foldl (stepLine processed) (conns0, [])
  let all := unionL processed r.2
  let all2 := if 2000 < all.length then all.drop (all.length - 2000) else all
  (gcConnections r.1 now, all2)

/-- A line that reaches the timestamp parse and fails there: it is the only
kind of line the loop leaves unmarked (`continue` at app.py line 1324), and
reprocessing it never mutates the connection map. -/
def BadTs (line : String) : Prop :=
  ∃ p, parseLogLine line = some p ∧ isExcluded p = false
    ∧ (firstTok p.tsStr).bind tsParse = none

/-! ## Concrete Reconstructor inputs used by the ledger-eviction scenario -/

/-- A qualifying device log line (spec section 8, scenario 4's line). -/
def c4line : String :=
  "10.0.2.15 - - [08/Nov/2025:12:00:00 +0000] \"GET /bootstrap.py HTTP/1.1\" 200 1234 \"-\" \"Arista-ZTP/1.0\""

/-- 2000 filler ledger entries, all starting with the letter `x`. -/
def c4junk : List String := (List.range 2000).map (fun i => "x" ++ toString i)

/-- The DeviceConnection created by one pass over `c4line`. -/
def c4dev : Device :=
  ⟨"10.0.2.15", 1762603200, 1762603200, true, some 1762603200,
    1762603200, 1762603200, 1, "Arista-ZTP/1.0",
    [⟨1762603200, 1762603200, 1⟩]⟩

/-! ## Activation-sequence vocabulary -/

/-- A name the listing will show: matches `glob('bootstrap*.py')` and is not
skipped as a backup. -/
def listable (n : String) : Bool := scriptGlob n && ¬ backupNamed n

/-- The pointer invariant: distinct names, and `bootstrap.py` resolves to an
existing regular file whose name the listing shows. -/
def Good (fs : FS) : Prop :=
  fs.WF ∧ ∃ r m c, resolveName fs "bootstrap.py" = some r
    ∧ fs.lookup r = some (.regular m c) ∧ listable r = true

/-- The activation requests covered by the amended C1: a clean validated
name that is either the pointer itself or an existing regular,
non-backup-named file. -/
def Allowed (fs : FS) (n : String) : Prop :=
  validate_filename_for_api n = some n
    ∧ (n = "bootstrap.py"
      ∨ ((∃ m c, fs.lookup n = some (.regular m c)) ∧ backupNamed n = false))

/-- States reachable by a sequence of successful `set_active_script` calls
on allowed names. -/
inductive ReachesA : FS → FS → Prop
  | refl (fs : FS) : ReachesA fs fs
  | step (fs0 fs fs' : FS) (n : String) : ReachesA fs0 fs → Allowed fs n →
      set_active_script fs n = some fs' → ReachesA fs0 fs'

/-! # Lemmas about the directory model -/

theorem lookup_insert_self (fs : FS) (n : String) (e : Entry) :
    (fs.insert n e).lookup n = some e := by
  induction fs with
  | nil => simp [FS.insert, FS.lookup]
  | cons p fs ih =>
    by_cases h : p.1 = n
    · simp [FS.insert, FS.lookup, h]
    · simp [FS.insert, FS.lookup, h, ih]

theorem lookup_insert_of_ne (fs : FS) (n m : String) (e : Entry) (h : m ≠ n) :
    (fs.insert n e).lookup m = fs.lookup m := by
  have hnm : ¬ n = m := fun hh => h hh.symm
  induction fs with
  | nil => simp [FS.insert, FS.lookup, hnm]
  | cons p fs ih =>
    by_cases hp : p.1 = n
    · have hpm : ¬ p.1 = m := by rw [hp]; exact hnm
      simp [FS.insert, FS.lookup, hp, hnm, hpm]
    · by_cases hm : p.1 = m
      · simp [FS.insert, FS.lookup, hp, hm, hnm, h]
      · simp [FS.insert, FS.lookup, hp, hm, ih]

theorem lookup_erase_self (fs : FS) (n : String) :
    (fs.erase n).lookup n = none := by
  induction fs with
  | nil => simp [FS.erase, FS.lookup]
  | cons p fs ih =>
    by_cases h : p.1 = n
    · simpa [FS.erase, h] using ih
    · simp only [FS.erase, h, if_false, FS.lookup]
      simpa [h] using ih

theorem lookup_erase_of_ne (fs : FS) (n m : String) (h : m ≠ n) :
    (fs.erase n).lookup m = fs.lookup m := by
  have hnm : ¬ n = m := fun hh => h hh.symm
  induction fs with
  | nil => simp [FS.erase, FS.lookup]
  | cons p fs ih =>
    by_cases hp : p.1 = n
    · simpa [FS.erase, FS.lookup, hp, hnm] using ih
    · by_cases hm : p.1 = m
      · simp [FS.erase, FS.lookup, hp, hm, hnm, h]
      · simpa [FS.erase, FS.lookup, hp, hm] using ih

theorem lookup_ren_of_ne (fs : FS) (old new m : String)
    (h1 : m ≠ old) (h2 : m ≠ new) : (fs.ren old new).lookup m = fs.lookup m := by
  unfold FS.ren
  cases hl : fs.lookup old with
  | none => rfl
  | some e => rw [lookup_insert_of_ne _ _ _ _ h2, lookup_erase_of_ne _ _ _ h1]

theorem length_pos_of_lookup (fs : FS) (n : String) (e : Entry)
    (h : fs.lookup n = some e) : 1 ≤ fs.length := by
  cases fs with
  | nil => simp [FS.lookup] at h
  | cons p fs => simp

/-! ### Well-formedness -/

theorem mem_keys_erase (fs : FS) (n m : String)
    (h : m ∈ (fs.erase n).map Prod.fst) : m ∈ fs.map Prod.fst := by
  induction fs with
  | nil => simp [FS.erase] at h
  | cons p fs ih =>
    by_cases hp : p.1 = n
    · simp only [FS.erase, hp, if_true] at h
      exact List.mem_cons_of_mem _ (ih h)
    · simp only [FS.erase, hp, if_false, List.map_cons, List.mem_cons] at h ⊢
      rcases h with h | h
      · exact .inl h
      · exact .inr (ih h)

theorem mem_keys_insert (fs : FS) (n : String) (e : Entry) (m : String)
    (h : m ∈ (fs.insert n e).map Prod.fst) :
    m ∈ fs.map Prod.fst ∨ m = n := by
  induction fs with
  | nil =>
    simp only [FS.insert, List.map_cons, List.map_nil, List.mem_singleton] at h
    exact .inr h
  | cons p fs ih =>
    by_cases hp : p.1 = n
    · simp only [FS.insert, hp, if_true, List.map_cons, List.mem_cons] at h
      rcases h with h | h
      · exact .inr h
      · exact .inl (by simp [h])
    · simp only [FS.insert, hp, if_false, List.map_cons, List.mem_cons] at h ⊢
      rcases h with h | h
      · exact .inl (.inl h)
      · rcases ih h with h2 | h2
        · exact .inl (.inr h2)
        · exact .inr h2

theorem WF_erase (fs : FS) (n : String) (h : fs.WF) : (fs.erase n).WF := by
  induction fs with
  | nil => exact h
  | cons p fs ih =>
    unfold FS.WF at h ⊢
    simp only [List.map_cons, List.nodup_cons] at h
    by_cases hp : p.1 = n
    · simpa [FS.erase, hp] using ih h.2
    · simp only [FS.erase, hp, if_false, List.map_cons, List.nodup_cons]
      exact ⟨fun hc => h.1 (mem_keys_erase _ _ _ hc), ih h.2⟩

theorem WF_insert (fs : FS) (n : String) (e : Entry) (h : fs.WF) :
    (fs.insert n e).WF := by
  induction fs with
  | nil => simp [FS.insert, FS.WF]
  | cons p fs ih =>
    unfold FS.WF at h ⊢
    simp only [List.map_cons, List.nodup_cons] at h
    by_cases hp : p.1 = n
    · simp only [FS.insert, hp, if_true, List.map_cons, List.nodup_cons]
      exact ⟨hp ▸ h.1, h.2⟩
    · simp only [FS.insert, hp, if_false, List.map_cons, List.nodup_cons]
      refine ⟨fun hc => ?_, ih h.2⟩
      rcases mem_keys_insert _ _ _ _ hc with h2 | h2
      · exact h.1 h2
      · exact hp h2

theorem WF_ren (fs : FS) (old new : String) (h : fs.WF) :
    (fs.ren old new).WF := by
  unfold FS.ren
  cases fs.lookup old with
  | none => exact h
  | some e => exact WF_insert _ _ _ (WF_erase _ _ h)

/-- Under `WF`, a member pair is what `lookup` returns. -/
theorem lookup_of_mem (fs : FS) (n : String) (e : Entry)
    (hwf : fs.WF) (h : (n, e) ∈ fs) : fs.lookup n = some e := by
  induction fs with
  | nil => simp at h
  | cons p fs ih =>
    unfold FS.WF at hwf
    simp only [List.map_cons, List.nodup_cons] at hwf
    rcases List.mem_cons.1 h with h | h
    · simp [FS.lookup, ← h]
    · have hne : ¬ p.1 = n := by
        intro hc
        exact hwf.1 (List.mem_map.2 ⟨(n, e), h, by simp [hc]⟩)
      simpa [FS.lookup, hne] using ih hwf.2 h

theorem mem_of_lookup (fs : FS) (n : String) (e : Entry)
    (h : fs.lookup n = some e) : (n, e) ∈ fs := by
  induction fs with
  | nil => simp [FS.lookup] at h
  | cons p fs ih =>
    by_cases hp : p.1 = n
    · simp only [FS.lookup, hp, if_true, Option.some.injEq] at h
      exact List.mem_cons.2 (.inl (by rw [← hp, ← h]))
    · simp only [FS.lookup, hp, if_false] at h
      exact List.mem_cons_of_mem _ (ih h)

/-! ### Resolution -/

theorem resolveN_regular (fs : FS) (fuel : Nat) (n : String) (m : Nat)
    (c : String) (h : fs.lookup n = some (.regular m c)) :
    resolveN fs (fuel + 1) n = some n := by
  simp [resolveN, h]

theorem resolveN_missing (fs : FS) (fuel : Nat) (n : String)
    (h : fs.lookup n = none) : resolveN fs (fuel + 1) n = some n := by
  simp [resolveN, h]

theorem resolveN_symlink (fs : FS) (fuel : Nat) (n t : String)
    (h : fs.lookup n = some (.symlink t)) :
    resolveN fs (fuel + 1) n = resolveN fs fuel t := by
  simp [resolveN, h]

theorem resolveName_regular (fs : FS) (n : String) (m : Nat) (c : String)
    (h : fs.lookup n = some (.regular m c)) : resolveName fs n = some n := by
  unfold resolveName
  exact resolveN_regular _ _ _ _ _ h

theorem resolveName_missing (fs : FS) (n : String)
    (h : fs.lookup n = none) : resolveName fs n = some n := by
  unfold resolveName
  exact resolveN_missing _ _ _ h

/-- A symlink pointing at a regular file resolves to the target. -/
theorem resolveName_symlink_regular (fs : FS) (n t : String) (m : Nat)
    (c : String) (h : fs.lookup n = some (.symlink t))
    (ht : fs.lookup t = some (.regular m c)) : resolveName fs n = some t := by
  unfold resolveName
  rw [resolveN_symlink _ _ _ _ h]
  rcases Nat.exists_eq_add_of_le (length_pos_of_lookup _ _ _ h) with ⟨k, hk⟩
  rw [hk, Nat.add_comm 1 k]
  exact resolveN_regular _ _ _ _ _ ht

theorem fsExists_regular (fs : FS) (n : String) (m : Nat) (c : String)
    (h : fs.lookup n = some (.regular m c)) : fsExists fs n = true := by
  simp [fsExists, resolveName_regular _ _ _ _ h, h]

theorem fsExists_missing (fs : FS) (n : String)
    (h : fs.lookup n = none) : fsExists fs n = false := by
  simp [fsExists, resolveName_missing _ _ h, h]

theorem statEntry_regular (fs : FS) (n : String) (m : Nat) (c : String)
    (h : fs.lookup n = some (.regular m c)) :
    statEntry fs n = some (m, c.data.length) := by
  simp [statEntry, resolveName_regular _ _ _ _ h, h]

/-! ### Backup collection and retention pruning -/

theorem backupNamed_of_glob (n : String) (h : backupGlob n = true) :
    backupNamed n = true := by
  unfold backupGlob at h
  unfold backupNamed
  simp only [Bool.and_eq_true] at h
  exact h.1.1

theorem insMt_perm (x : Nat × String) (l : List (Nat × String)) :
    List.Perm (insMt x l) (x :: l) := by
  induction l with
  | nil => exact List.Perm.refl _
  | cons y ys ih =>
    by_cases h : y.1 < x.1
    · simp [insMt, h]
    · simp only [insMt, h, if_false]
      exact (ih.cons y).trans (List.Perm.swap x y ys)

theorem sortMtDesc_perm (l : List (Nat × String)) :
    List.Perm (sortMtDesc l) l := by
  induction l with
  | nil => exact List.Perm.refl _
  | cons x xs ih => exact (insMt_perm x (sortMtDesc xs)).trans (ih.cons x)

/-- The names produced by a name-preserving `filterMap` form a sublist of the
key list. -/
theorem names_filterMap_sublist (f : (String × Entry) → Option (Nat × String))
    (hf : ∀ p y, f p = some y → y.2 = p.1) (l : List (String × Entry)) :
    ((l.filterMap f).map (·.2)).Sublist (l.map Prod.fst) := by
  induction l with
  | nil => simp
  | cons p l ih =>
    cases hfp : f p with
    | none =>
      simp only [List.filterMap_cons, hfp, List.map_cons]
      exact ih.cons _
    | some y =>
      simp only [List.filterMap_cons, hfp, List.map_cons]
      rw [hf p y hfp]
      exact ih.cons₂ _

theorem backupFiles_names_sublist (fs : FS) :
    ((backupFiles fs).map (·.2)).Sublist (fs.map Prod.fst) := by
  unfold backupFiles
  refine names_filterMap_sublist _ (fun p y hy => ?_) fs
  by_cases hg : backupGlob p.1 = true
  · simp only [hg, if_true, Option.map_eq_some'] at hy
    rcases hy with ⟨st, _, hst⟩
    rw [← hst]
  · simp [hg] at hy

theorem mem_backupFiles_names (fs : FS) (n : String) :
    n ∈ (backupFiles fs).map (·.2) ↔
      (∃ e, (n, e) ∈ fs) ∧ backupGlob n = true
        ∧ (statEntry fs n).isSome = true := by
  constructor
  · intro h
    rcases List.mem_map.1 h with ⟨y, hy, hyn⟩
    rcases List.mem_filterMap.1 hy with ⟨p, hp, hfp⟩
    by_cases hg : backupGlob p.1 = true
    · simp only [hg, if_true, Option.map_eq_some'] at hfp
      rcases hfp with ⟨st, hst, hy2⟩
      have hpn : p.1 = n := by rw [← hyn, ← hy2]
      refine ⟨⟨p.2, by rw [← hpn]; exact hp⟩, hpn ▸ hg, ?_⟩
      rw [← hpn, hst]
      rfl
    · simp [hg] at hfp
  · rintro ⟨⟨e, hmem⟩, hg, hsome⟩
    rcases Option.isSome_iff_exists.1 hsome with ⟨st, hst⟩
    refine List.mem_map.2 ⟨(st.1, n), List.mem_filterMap.2 ⟨(n, e), hmem, ?_⟩, rfl⟩
    simp [hg, hst]

/-- Entries with a kept name are preserved by a name-based filter. -/
theorem lookup_filter_of_kept (fs : FS) (pred : (String × Entry) → Bool)
    (n : String) (h : ∀ p ∈ fs, p.1 = n → pred p = true) :
    FS.lookup (fs.filter pred) n = fs.lookup n := by
  induction fs with
  | nil => simp [FS.lookup]
  | cons p fs ih =>
    by_cases hp : p.1 = n
    · rw [List.filter_cons_of_pos (h p (List.mem_cons_self _ _) hp)]
      simp [FS.lookup, hp]
    · have ih2 := ih (fun q hq hqn => h q (List.mem_cons_of_mem _ hq) hqn)
      by_cases hpred : pred p = true
      · rw [List.filter_cons_of_pos hpred]
        simp [FS.lookup, hp, ih2]
      · rw [List.filter_cons_of_neg (by simpa using hpred)]
        simp [FS.lookup, hp, ih2]

/-- Entries whose name is uniformly rejected vanish from the lookup. -/
theorem lookup_filter_of_dropped (fs : FS) (pred : (String × Entry) → Bool)
    (n : String) (h : ∀ p ∈ fs, p.1 = n → pred p = false) :
    FS.lookup (fs.filter pred) n = none := by
  induction fs with
  | nil => simp [FS.lookup]
  | cons p fs ih =>
    have ih2 := ih (fun q hq hqn => h q (List.mem_cons_of_mem _ hq) hqn)
    by_cases hp : p.1 = n
    · rw [List.filter_cons_of_neg
        (by simp [h p (List.mem_cons_self _ _) hp])]
      exact ih2
    · by_cases hpred : pred p = true
      · rw [List.filter_cons_of_pos hpred]
        simp [FS.lookup, hp, ih2]
      · rw [List.filter_cons_of_neg (by simpa using hpred)]
        exact ih2

/-- Any name doomed by retention pruning is a backup-glob name. -/
theorem doomed_backupGlob (fs : FS) (n : String)
    (h : n ∈ ((sortMtDesc (backupFiles fs)).drop 5).map (·.2)) :
    backupGlob n = true := by
  rcases List.mem_map.1 h with ⟨y, hy, hyn⟩
  have hy2 : y ∈ backupFiles fs :=
    (sortMtDesc_perm (backupFiles fs)).mem_iff.1 (List.mem_of_mem_drop hy)
  have := (mem_backupFiles_names fs n).1 (List.mem_map.2 ⟨y, hy2, hyn⟩)
  exact this.2.1

/-- Shared frame lemma: `cleanup_old_backups` never touches an entry whose
name lacks the `bootstrap_backup_` prefix. -/
theorem cleanup_lookup_nonbackup (fs : FS) (n : String)
    (h : backupNamed n = false) :
    FS.lookup (cleanup_old_backups fs) n = fs.lookup n := by
  unfold cleanup_old_backups
  by_cases hlen : 5 < (sortMtDesc (backupFiles fs)).length
  · simp only [hlen, if_true]
    refine lookup_filter_of_kept _ _ _ (fun p _ hpn => ?_)
    rw [decide_eq_true_eq]
    intro hmem
    rw [hpn] at hmem
    have := backupNamed_of_glob n (doomed_backupGlob fs n hmem)
    rw [h] at this
    exact Bool.false_ne_true this
  · rw [if_neg hlen]

/-- In both branches, `cleanup_old_backups fs` is a sublist of `fs`. -/
theorem cleanup_sublist (fs : FS) : (cleanup_old_backups fs).Sublist fs := by
  unfold cleanup_old_backups
  by_cases hlen : 5 < (sortMtDesc (backupFiles fs)).length
  · rw [if_pos hlen]
    exact List.filter_sublist fs
  · rw [if_neg hlen]

theorem WF_of_sublist (fs gs : FS) (h : gs.Sublist fs) (hwf : fs.WF) :
    gs.WF := (h.map Prod.fst).nodup hwf

theorem WF_cleanup (fs : FS) (hwf : fs.WF) : (cleanup_old_backups fs).WF :=
  WF_of_sublist fs _ (cleanup_sublist fs) hwf

/-- The names of the mtime-sorted backup list are duplicate-free under `WF`. -/
theorem sorted_names_nodup (fs : FS) (hwf : fs.WF) :
    ((sortMtDesc (backupFiles fs)).map (·.2)).Nodup := by
  have h1 : ((backupFiles fs).map (·.2)).Nodup :=
    (backupFiles_names_sublist fs).nodup hwf
  exact (((sortMtDesc_perm (backupFiles fs)).map (·.2)).nodup_iff).2 h1

/-- A backup-named entry is present after pruning iff its name is among the
5 most recent (mtime-descending) backup names. -/
theorem cleanup_keeps_iff (fs : FS) (hwf : fs.WF)
    (hstat : ∀ p ∈ fs, backupGlob p.1 = true → (statEntry fs p.1).isSome = true)
    (n : String) :
    (backupGlob n = true ∧ (FS.lookup (cleanup_old_backups fs) n).isSome = true)
      ↔ n ∈ ((sortMtDesc (backupFiles fs)).take 5).map (·.2) := by
  have hsplit : ((sortMtDesc (backupFiles fs)).take 5).map (·.2)
      ++ ((sortMtDesc (backupFiles fs)).drop 5).map (·.2)
      = (sortMtDesc (backupFiles fs)).map (·.2) := by
    rw [← List.map_append, List.take_append_drop]
  constructor
  · rintro ⟨hg, hsome⟩
    rcases Option.isSome_iff_exists.1 hsome with ⟨e, he⟩
    have hmemc : (n, e) ∈ cleanup_old_backups fs := mem_of_lookup _ _ _ he
    have hmemfs : (n, e) ∈ fs := (cleanup_sublist fs).mem hmemc
    have hnames : n ∈ (sortMtDesc (backupFiles fs)).map (·.2) := by
      have : n ∈ (backupFiles fs).map (·.2) :=
        (mem_backupFiles_names fs n).2
          ⟨⟨e, hmemfs⟩, hg, hstat (n, e) hmemfs hg⟩
      exact (((sortMtDesc_perm (backupFiles fs)).map (·.2)).mem_iff).2 this
    rw [← hsplit] at hnames
    rcases List.mem_append.1 hnames with hk | hd
    · exact hk
    · -- a doomed name cannot still be present
      exfalso
      by_cases hlen : 5 < (sortMtDesc (backupFiles fs)).length
      · have hcl : cleanup_old_backups fs = fs.filter (fun p =>
            decide (p.1 ∉ ((sortMtDesc (backupFiles fs)).drop 5).map (·.2))) := by
          unfold cleanup_old_backups
          rw [if_pos hlen]
        rw [hcl] at hmemc
        have hpred := (List.mem_filter.1 hmemc).2
        rw [decide_eq_true_eq] at hpred
        exact hpred hd
      · -- without truncation nothing is doomed
        push_neg at hlen
        have : (sortMtDesc (backupFiles fs)).drop 5 = [] :=
          List.drop_eq_nil_of_le hlen
        rw [this] at hd
        simp at hd
  · intro hk
    have hnames : n ∈ (sortMtDesc (backupFiles fs)).map (·.2) := by
      rw [← hsplit]
      exact List.mem_append.2 (.inl hk)
    have hbf : n ∈ (backupFiles fs).map (·.2) :=
      (((sortMtDesc_perm (backupFiles fs)).map (·.2)).mem_iff).1 hnames
    rcases (mem_backupFiles_names fs n).1 hbf with ⟨⟨e, hmem⟩, hg, _⟩
    have hlk : fs.lookup n = some e := lookup_of_mem fs n e hwf hmem
    refine ⟨hg, ?_⟩
    have hnd : n ∉ ((sortMtDesc (backupFiles fs)).drop 5).map (·.2) := by
      have hnodup : (((sortMtDesc (backupFiles fs)).take 5).map (·.2)
          ++ ((sortMtDesc (backupFiles fs)).drop 5).map (·.2)).Nodup := by
        rw [hsplit]
        exact sorted_names_nodup fs hwf
      exact (List.nodup_append.1 hnodup).2.2 hk
    by_cases hlen : 5 < (sortMtDesc (backupFiles fs)).length
    · have hcl : cleanup_old_backups fs = fs.filter (fun p =>
          decide (p.1 ∉ ((sortMtDesc (backupFiles fs)).drop 5).map (·.2))) := by
        unfold cleanup_old_backups
        rw [if_pos hlen]
      rw [hcl, lookup_filter_of_kept fs _ n (fun p _ hpn => by
        rw [decide_eq_true_eq, hpn]
        exact hnd), hlk]
      rfl
    · have hcl : cleanup_old_backups fs = fs := by
        unfold cleanup_old_backups
        rw [if_neg hlen]
      rw [hcl, hlk]
      rfl

/-- After pruning, at most 5 backup-glob entries remain. -/
theorem cleanup_backup_count (fs : FS) (hwf : fs.WF)
    (hstat : ∀ p ∈ fs, backupGlob p.1 = true → (statEntry fs p.1).isSome = true) :
    ((cleanup_old_backups fs).filter (fun p => backupGlob p.1)).length ≤ 5 := by
  set l := (cleanup_old_backups fs).filter (fun p => backupGlob p.1) with hl
  have hsub : l.Sublist fs := (List.filter_sublist _).trans (cleanup_sublist fs)
  have hnodup : (l.map Prod.fst).Nodup := (hsub.map Prod.fst).nodup hwf
  have hsubset : l.map Prod.fst
      ⊆ ((sortMtDesc (backupFiles fs)).take 5).map (·.2) := by
    intro x hx
    rcases List.mem_map.1 hx with ⟨p, hp, hpx⟩
    have hpc : p ∈ cleanup_old_backups fs := (List.filter_sublist _).mem hp
    have hpg : backupGlob p.1 = true := by
      have := (List.mem_filter.1 hp).2
      exact this
    have hlk : FS.lookup (cleanup_old_backups fs) p.1 = some p.2 :=
      lookup_of_mem _ _ _ (WF_cleanup fs hwf) (by
        cases p
        exact hpc)
    have := (cleanup_keeps_iff fs hwf hstat p.1).1 ⟨hpg, by rw [hlk]; rfl⟩
    rw [← hpx]
    exact this
  calc l.length = (l.map Prod.fst).length := (List.length_map _ _).symm
    _ ≤ (((sortMtDesc (backupFiles fs)).take 5).map (·.2)).length :=
      (List.subperm_of_subset hnodup hsubset).length_le
    _ = ((sortMtDesc (backupFiles fs)).take 5).length := List.length_map _ _
    _ ≤ 5 := List.length_take_le _ _

/-- **C5**: after any Activate call that creates a new Backup, retention
pruning leaves at most 5 backup files: the backup files are ordered by
modification time descending and exactly the 5 most recent survive — a
backup-glob name is present after `cleanup_old_backups` iff it is among the
first 5 names of the mtime-descending sort (every later entry is deleted).
Hypotheses: distinct names, and every backup-glob entry can be `stat`ed. -/
theorem C5_retention_pruning (fs : FS) (hwf : fs.WF)
    (hstat : ∀ p ∈ fs, backupGlob p.1 = true → (statEntry fs p.1).isSome = true) :
    ((cleanup_old_backups fs).filter (fun p => backupGlob p.1)).length ≤ 5
    ∧ ∀ n : String,
      (backupGlob n = true ∧ (FS.lookup (cleanup_old_backups fs) n).isSome = true)
        ↔ n ∈ ((sortMtDesc (backupFiles fs)).take 5).map (·.2) :=
  ⟨cleanup_backup_count fs hwf hstat, cleanup_keeps_iff fs hwf hstat⟩

/-- Concrete instance of C5: seven backups, the two oldest are pruned. -/
theorem C5_retention_pruning_witness :
    (((cleanup_old_backups
        [("bootstrap.py", .regular 50 "act"),
         ("bootstrap_backup_1.py", .regular 1 "a"),
         ("bootstrap_backup_2.py", .regular 2 "b"),
         ("bootstrap_backup_3.py", .regular 3 "c"),
         ("bootstrap_backup_4.py", .regular 4 "d"),
         ("bootstrap_backup_5.py", .regular 5 "e"),
         ("bootstrap_backup_6.py", .regular 6 "f"),
         ("bootstrap_backup_7.py", .regular 7 "g")]).filter
        (fun p => backupGlob p.1)).length ≤ 5)
    ∧ ((backupGlob "bootstrap_backup_7.py" = true
        ∧ (FS.lookup (cleanup_old_backups
            [("bootstrap.py", .regular 50 "act"),
             ("bootstrap_backup_1.py", .regular 1 "a"),
             ("bootstrap_backup_2.py", .regular 2 "b"),
             ("bootstrap_backup_3.py", .regular 3 "c"),
             ("bootstrap_backup_4.py", .regular 4 "d"),
             ("bootstrap_backup_5.py", .regular 5 "e"),
             ("bootstrap_backup_6.py", .regular 6 "f"),
             ("bootstrap_backup_7.py", .regular 7 "g")])
            "bootstrap_backup_7.py").isSome = true)
      ↔ "bootstrap_backup_7.py" ∈ ((sortMtDesc (backupFiles
            [("bootstrap.py", .regular 50 "act"),
             ("bootstrap_backup_1.py", .regular 1 "a"),
             ("bootstrap_backup_2.py", .regular 2 "b"),
             ("bootstrap_backup_3.py", .regular 3 "c"),
             ("bootstrap_backup_4.py", .regular 4 "d"),
             ("bootstrap_backup_5.py", .regular 5 "e"),
             ("bootstrap_backup_6.py", .regular 6 "f"),
             ("bootstrap_backup_7.py", .regular 7 "g")])).take 5).map (·.2)) :=
  ⟨(C5_retention_pruning _ (by decide) (by decide)).1,
    (C5_retention_pruning _ (by decide) (by decide)).2 "bootstrap_backup_7.py"⟩

/-- **C10**: retention pruning only deletes `bootstrap_backup_*.py` files:
any entry whose name does not start with `bootstrap_backup_` (the
ActivePointer, every ScriptFile, the metadata JSON, anything else) is left
unchanged by `cleanup_old_backups`, for every directory state. -/
theorem C10_cleanup_frame (fs : FS) (n : String) (h : backupNamed n = false) :
    FS.lookup (cleanup_old_backups fs) n = fs.lookup n :=
  cleanup_lookup_nonbackup fs n h

/-- Concrete instance of C10: with seven backups present (so pruning does
delete files), the pointer, a script and the metadata JSON are untouched. -/
theorem C10_cleanup_frame_witness :
    backupNamed "scripts_metadata.json" = false
    ∧ FS.lookup (cleanup_old_backups
        [("bootstrap.py", .regular 50 "act"),
         ("scripts_metadata.json", .regular 9 "meta"),
         ("bootstrap2.py", .regular 60 "s2"),
         ("bootstrap_backup_1.py", .regular 1 "a"),
         ("bootstrap_backup_2.py", .regular 2 "b"),
         ("bootstrap_backup_3.py", .regular 3 "c"),
         ("bootstrap_backup_4.py", .regular 4 "d"),
         ("bootstrap_backup_5.py", .regular 5 "e"),
         ("bootstrap_backup_6.py", .regular 6 "f"),
         ("bootstrap_backup_7.py", .regular 7 "g")]) "scripts_metadata.json"
      = FS.lookup
        [("bootstrap.py", .regular 50 "act"),
         ("scripts_metadata.json", .regular 9 "meta"),
         ("bootstrap2.py", .regular 60 "s2"),
         ("bootstrap_backup_1.py", .regular 1 "a"),
         ("bootstrap_backup_2.py", .regular 2 "b"),
         ("bootstrap_backup_3.py", .regular 3 "c"),
         ("bootstrap_backup_4.py", .regular 4 "d"),
         ("bootstrap_backup_5.py", .regular 5 "e"),
         ("bootstrap_backup_6.py", .regular 6 "f"),
         ("bootstrap_backup_7.py", .regular 7 "g")] "scripts_metadata.json" :=
  ⟨by decide, C10_cleanup_frame _ "scripts_metadata.json" (by decide)⟩

/-! ### Validation and existence helpers -/

theorem validate_endsW (f s : String)
    (h : validate_filename_for_api f = some s) : endsW f ".py" = true := by
  unfold validate_filename_for_api at h
  by_cases h0 : f = ""
  · simp [h0] at h
  · by_cases h1 : endsW f ".py" = true
    · exact h1
    · simp [h0, h1] at h

theorem fsExists_elim (fs : FS) (n : String) (h : fsExists fs n = true) :
    ∃ a, resolveName fs n = some a
      ∧ ∃ m c, fs.lookup a = some (.regular m c) := by
  cases hr : resolveName fs n with
  | none =>
    unfold fsExists at h
    rw [hr] at h
    simp at h
  | some a =>
    cases hl : fs.lookup a with
    | none =>
      unfold fsExists at h
      rw [hr] at h
      simp [hl] at h
    | some e =>
      cases e with
      | regular m c => exact ⟨a, rfl, m, c, hl⟩
      | symlink t =>
        unfold fsExists at h
        rw [hr] at h
        simp [hl] at h

theorem fsExists_of_resolve (fs : FS) (n a : String) (m : Nat) (c : String)
    (hr : resolveName fs n = some a) (hl : fs.lookup a = some (.regular m c)) :
    fsExists fs n = true := by
  unfold fsExists
  rw [hr]
  simp [hl]

/-! # C8: delete refuses the active script -/

/-- **C8**: `Delete(name)` fails with `ActiveScriptLocked` (before any
mutation, so the directory is unchanged) whenever the active pointer exists
and `name` resolves — directly or through symlinks — to the same file the
pointer resolves to; in particular `Delete("bootstrap.py")` is refused
whenever `bootstrap.py` is a regular file.  `hval` says `name` is a clean
validated script name (otherwise the request dies earlier with
`invalidName`). -/
theorem C8_delete_active_locked (fs : FS) (filename : String)
    (hval : validate_filename_for_api filename = some filename)
    (hex : fsExists fs "bootstrap.py" = true)
    (hres : resolveName fs filename = resolveName fs "bootstrap.py") :
    delete_bootstrap_script fs filename = .error .activeLocked := by
  have hpy : endsW filename ".py" = true := validate_endsW filename filename hval
  rcases fsExists_elim fs _ hex with ⟨a, ha, m, c, hreg⟩
  have hexf : fsExists fs filename = true :=
    fsExists_of_resolve fs filename a m c (hres.trans ha) hreg
  unfold delete_bootstrap_script
  simp only [hval]
  rw [if_neg (by simp [hexf, hpy])]
  by_cases hb : filename = "bootstrap.py"
  · cases hl : fs.lookup "bootstrap.py" with
    | none =>
      -- the pointer would resolve to itself yet have no entry
      exfalso
      rw [resolveName_missing fs _ hl] at ha
      cases ha
      rw [hl] at hreg
      exact Option.noConfusion hreg
    | some e =>
      cases e with
      | regular m2 c2 => rw [if_pos (by simp [hb, hl])]
      | symlink t =>
        rw [if_neg (by simp [hl]), if_pos hex, ha, hres.trans ha]
        simp
  · rw [if_neg (by simp [hb]), if_pos hex, ha, hres.trans ha]
    simp

/-- Concrete instance of C8: the pointer is a symlink to `bootstrap2.py`,
and deleting `bootstrap2.py` is refused. -/
theorem C8_delete_active_locked_witness :
    (validate_filename_for_api "bootstrap2.py" = some "bootstrap2.py"
      ∧ fsExists [("bootstrap.py", Entry.symlink "bootstrap2.py"),
          ("bootstrap2.py", Entry.regular 7 "s2")] "bootstrap.py" = true)
    ∧ delete_bootstrap_script
        [("bootstrap.py", Entry.symlink "bootstrap2.py"),
         ("bootstrap2.py", Entry.regular 7 "s2")] "bootstrap2.py"
      = .error .activeLocked :=
  ⟨⟨by decide, by decide⟩,
    C8_delete_active_locked _ "bootstrap2.py" (by decide) (by decide) (by decide)⟩

/-! # C3: rename and the `bootstrap` auto-prefix -/

/-- **C3, counterexample**: the claim says `Rename("bootstrap2.py", "prod")`
succeeds with auto-prefixing to `bootstrap_prod.py`.  In the code the
auto-prefix branch is only reached when the new name already ends in `.py`;
`"prod"` is rejected with *New name must end with .py* even though
`bootstrap2.py` exists, is not active, and no conflicting file exists. -/
theorem C3_counterexample :
    fsExists [("bootstrap.py", Entry.regular 100 "act"),
        ("bootstrap2.py", Entry.regular 200 "s2")] "bootstrap2.py" = true
    ∧ FS.lookup [("bootstrap.py", Entry.regular 100 "act"),
        ("bootstrap2.py", Entry.regular 200 "s2")] "bootstrap_prod.py" = none
    ∧ resolveName [("bootstrap.py", Entry.regular 100 "act"),
        ("bootstrap2.py", Entry.regular 200 "s2")] "bootstrap.py"
      ≠ resolveName [("bootstrap.py", Entry.regular 100 "act"),
        ("bootstrap2.py", Entry.regular 200 "s2")] "bootstrap2.py"
    ∧ rename_bootstrap_script [("bootstrap.py", Entry.regular 100 "act"),
        ("bootstrap2.py", Entry.regular 200 "s2")] "bootstrap2.py" "prod"
      = .error .invalidName := by
  refine ⟨by decide, by decide, by decide, rfl⟩

/-- **C3, amended**: `Rename("bootstrap2.py", "prod")` is rejected with
`InvalidName` because the new name must end in `.py` before auto-prefixing
is attempted; `Rename("bootstrap2.py", "prod.py")` is the input that gets
auto-prefixed to `bootstrap_prod.py` and succeeds when `bootstrap2.py`
exists, is not the active script (the pointer being a regular file), and no
conflicting `bootstrap_prod.py` exists. -/
theorem C3_amended_rename (fs : FS) (m mp : Nat) (c cp : String)
    (h2 : fs.lookup "bootstrap2.py" = some (.regular m c))
    (hp : fs.lookup "bootstrap.py" = some (.regular mp cp))
    (hnew : fs.lookup "bootstrap_prod.py" = none) :
    rename_bootstrap_script fs "bootstrap2.py" "prod" = .error .invalidName
    ∧ rename_bootstrap_script fs "bootstrap2.py" "prod.py"
      = .ok (fs.ren "bootstrap2.py" "bootstrap_prod.py", "bootstrap_prod.py") := by
  have hv : validate_filename_for_api "bootstrap2.py" = some "bootstrap2.py" := by
    decide
  have he2 := fsExists_regular fs _ m c h2
  have hpy : endsW "bootstrap2.py" ".py" = true := by decide
  constructor
  · unfold rename_bootstrap_script
    simp only [hv]
    rw [if_neg (by simp [he2, hpy])]
    rfl
  · unfold rename_bootstrap_script
    simp only [hv]
    rw [if_neg (by simp [he2, hpy])]
    show renameAfter fs "bootstrap2.py" "bootstrap_prod.py" = _
    unfold renameAfter
    rw [if_neg (by simp [fsExists_missing fs _ hnew])]
    rw [if_pos (fsExists_regular fs _ mp cp hp)]
    rw [resolveName_regular fs _ _ _ hp, resolveName_regular fs _ _ _ h2]
    simp

/-- Concrete instance of the amended C3. -/
theorem C3_amended_rename_witness :
    (FS.lookup [("bootstrap.py", Entry.regular 100 "act"),
        ("bootstrap2.py", Entry.regular 200 "s2")] "bootstrap2.py"
      = some (.regular 200 "s2"))
    ∧ rename_bootstrap_script [("bootstrap.py", Entry.regular 100 "act"),
        ("bootstrap2.py", Entry.regular 200 "s2")] "bootstrap2.py" "prod"
      = .error .invalidName
    ∧ rename_bootstrap_script [("bootstrap.py", Entry.regular 100 "act"),
        ("bootstrap2.py", Entry.regular 200 "s2")] "bootstrap2.py" "prod.py"
      = .ok ((FS.ren [("bootstrap.py", Entry.regular 100 "act"),
          ("bootstrap2.py", Entry.regular 200 "s2")]
          "bootstrap2.py" "bootstrap_prod.py"), "bootstrap_prod.py") :=
  ⟨by decide,
    (C3_amended_rename _ 200 100 "s2" "act" (by decide) (by decide) (by decide)).1,
    (C3_amended_rename _ 200 100 "s2" "act" (by decide) (by decide) (by decide)).2⟩

/-! # C2: garbage-collection boundary -/

/-- **C2, counterexample**: the claim says a DeviceConnection whose
`lastSeen` is exactly 86400 seconds in the past is retained.  The code keeps
a device only when `last_seen > current_time - 86400` (strict), so at
exactly 86400 seconds it is dropped from the returned (and persisted) map:
a pass over an empty tail at `now = 200000` deletes the device with
`lastSeen = 113600 = 200000 - 86400`. -/
theorem C2_counterexample :
    (200000 - 113600 = (86400 : Int))
    ∧ (parse_nginx_access_log [] [("1.2.3.4",
        ⟨"1.2.3.4", 0, 113600, false, none, 0, 0, 3, "u", []⟩)] [] 200000).1
      = [] := by
  exact ⟨by decide, by decide⟩

/-- **C2, amended**: during garbage collection a DeviceConnection is
retained iff its `lastSeen` is strictly less than 86400 seconds old; one
whose `lastSeen` is exactly 86400 seconds before the current time is
dropped (as is anything older), and 86399 seconds is retained. -/
theorem C2_amended_gc_boundary (conns : Conns) (now : Int) (ip : String)
    (d : Device) (h : (ip, d) ∈ conns) :
    (ip, d) ∈ gcConnections conns now ↔ now - d.lastSeen < 86400 := by
  unfold gcConnections
  constructor
  · intro hh
    have h2 := (List.mem_filter.1 hh).2
    simp only [decide_eq_true_eq] at h2
    omega
  · intro hh
    refine List.mem_filter.2 ⟨h, ?_⟩
    simp only [decide_eq_true_eq]
    omega

/-- Concrete instance of the amended C2: 86399 seconds old is retained,
86400 is not. -/
theorem C2_amended_gc_boundary_witness :
    (("a", (⟨"a", 0, 113601, false, none, 0, 0, 1, "u", []⟩ : Device))
        ∈ gcConnections [("a", ⟨"a", 0, 113601, false, none, 0, 0, 1, "u", []⟩),
          ("b", ⟨"b", 0, 113600, false, none, 0, 0, 1, "u", []⟩)] 200000)
    ∧ ¬ (("b", (⟨"b", 0, 113600, false, none, 0, 0, 1, "u", []⟩ : Device))
        ∈ gcConnections [("a", ⟨"a", 0, 113601, false, none, 0, 0, 1, "u", []⟩),
          ("b", ⟨"b", 0, 113600, false, none, 0, 0, 1, "u", []⟩)] 200000) :=
  ⟨(C2_amended_gc_boundary _ 200000 "a" _ (by decide)).2 (by decide),
    fun hmem => absurd ((C2_amended_gc_boundary _ 200000 "b" _ (by decide)).1 hmem)
      (by decide)⟩

/-! # C7: session folding boundary and the 50-session cap -/

theorem getLast?_drop {α : Type} (l : List α) (k : Nat) (hk : k < l.length) :
    (l.drop k).getLast? = l.getLast? := by
  induction l generalizing k with
  | nil => simp at hk
  | cons x xs ih =>
    cases k with
    | zero => simp
    | succ k =>
      simp only [List.drop_succ_cons]
      rw [ih k (by simpa using hk)]
      cases xs with
      | nil => simp at hk
      | cons y ys => simp [List.getLast?_cons_cons]

/-- **C7**: with a most recent session ending at `last.stop`, a line 299
seconds later extends that session (`end` advanced to `t`, request count
incremented) while a line 300 seconds later starts a fresh session
`{t, t, 1}`; in both cases the list keeps at most the 50 most recent
sessions, dropping from the front (oldest first). -/
theorem C7_session_boundary (s : List Session) (t : Int) (last : Session)
    (h : s.getLast? = some last) :
    (t - last.stop = 299 →
      (updateSessions s t).getLast? = some ⟨last.start, t, last.requests + 1⟩
      ∧ (updateSessions s t).length = min s.length 50
      ∧ (updateSessions s t).IsSuffix
          (s.dropLast ++ [⟨last.start, t, last.requests + 1⟩]))
    ∧ (t - last.stop = 300 →
      (updateSessions s t).getLast? = some ⟨t, t, 1⟩
      ∧ (updateSessions s t).length = min (s.length + 1) 50
      ∧ (updateSessions s t).IsSuffix (s ++ [⟨t, t, 1⟩]))
    ∧ (updateSessions s t).length ≤ 50 := by
  have hne : s ≠ [] := by
    intro hc
    rw [hc] at h
    exact Option.noConfusion h
  have hslen : 1 ≤ s.length := List.length_pos.2 hne
  refine ⟨fun h299 => ?_, fun h300 => ?_, ?_⟩
  · have hlt : t - last.stop < 300 := by omega
    have hbr : updateSessions s t =
        (let s2 := s.dropLast ++ [⟨last.start, t, last.requests + 1⟩]
         if 50 < s2.length then s2.drop (s2.length - 50) else s2) := by
      unfold updateSessions
      simp only [h]
      rw [if_pos hlt]
    have hlen2 : (s.dropLast ++ [(⟨last.start, t, last.requests + 1⟩ : Session)]).length
        = s.length := by
      simp [List.length_dropLast]
      omega
    rw [hbr]
    by_cases hL : 50 < (s.dropLast ++ [(⟨last.start, t, last.requests + 1⟩ : Session)]).length
    · simp only [hL, if_true]
      refine ⟨?_, ?_, List.drop_suffix _ _⟩
      · rw [getLast?_drop _ _ (by omega)]
        exact List.getLast?_concat _
      · rw [List.length_drop, hlen2]
        omega
    · simp only [hL, if_false]
      refine ⟨List.getLast?_concat _, ?_, List.suffix_refl _⟩
      rw [hlen2]
      omega
  · have hge : ¬ t - last.stop < 300 := by omega
    have hbr : updateSessions s t =
        (let s2 := s ++ [(⟨t, t, 1⟩ : Session)]
         if 50 < s2.length then s2.drop (s2.length - 50) else s2) := by
      unfold updateSessions
      simp only [h]
      rw [if_neg hge]
    have hlen2 : (s ++ [(⟨t, t, 1⟩ : Session)]).length = s.length + 1 := by simp
    rw [hbr]
    by_cases hL : 50 < (s ++ [(⟨t, t, 1⟩ : Session)]).length
    · simp only [hL, if_true]
      refine ⟨?_, ?_, List.drop_suffix _ _⟩
      · rw [getLast?_drop _ _ (by omega)]
        exact List.getLast?_concat _
      · rw [List.length_drop, hlen2]
        omega
    · simp only [hL, if_false]
      refine ⟨List.getLast?_concat _, ?_, List.suffix_refl _⟩
      rw [hlen2]
      omega
  · unfold updateSessions
    simp only [h]
    by_cases hlt : t - last.stop < 300
    · rw [if_pos hlt]
      by_cases hL : 50 < (s.dropLast ++ [(⟨last.start, t, last.requests + 1⟩ : Session)]).length
      · simp only [hL, if_true, List.length_drop]
        omega
      · simp only [hL, if_false]
        omega
    · rw [if_neg hlt]
      by_cases hL : 50 < (s ++ [(⟨t, t, 1⟩ : Session)]).length
      · simp only [hL, if_true, List.length_drop]
        omega
      · simp only [hL, if_false]
        omega

/-- Concrete instance of C7: a session ending at 100 is extended by a line
at 399 (gap 299) and a new session is opened by a line at 400 (gap 300). -/
theorem C7_session_boundary_witness :
    ([(⟨0, 100, 2⟩ : Session)].getLast? = some ⟨0, 100, 2⟩)
    ∧ (updateSessions [⟨0, 100, 2⟩] 399).getLast? = some ⟨0, 399, 3⟩
    ∧ (updateSessions [⟨0, 100, 2⟩] 400).getLast? = some ⟨400, 400, 1⟩ :=
  ⟨by decide,
    ((C7_session_boundary [⟨0, 100, 2⟩] 399 ⟨0, 100, 2⟩ (by decide)).1
      (by decide)).1,
    ((C7_session_boundary [⟨0, 100, 2⟩] 400 ⟨0, 100, 2⟩ (by decide)).2.1
      (by decide)).1⟩

/-! # C9: lastSeen is overwritten, not advanced -/

theorem lookupC_insertC_self (cs : Conns) (ip : String) (d : Device) :
    lookupC (insertC cs ip d) ip = some d := by
  induction cs with
  | nil => simp [insertC, lookupC]
  | cons p cs ih =>
    by_cases h : p.1 = ip
    · simp [insertC, lookupC, h]
    · simp [insertC, lookupC, h, ih]

/-- **C9, counterexample**: the claim says `lastSeen` only moves forward in
every Reconstructor pass.  Two qualifying lines from the same IP whose
timestamps *decrease* in file order (12:00 then 11:00) leave `lastSeen` at
the smaller value: after the first line it is 1762603200, after both lines
it is 1762599600 < 1762603200. -/
theorem C9_counterexample :
    ((lookupC (parse_nginx_access_log
      ["10.0.2.15 - - [08/Nov/2025:12:00:00 +0000] \"GET /bootstrap.py HTTP/1.1\" 200 1234 \"-\" \"Arista-ZTP/1.0\""]
      [] [] 1762603200).1 "10.0.2.15").map (fun d => d.lastSeen)
      = some 1762603200)
    ∧ ((lookupC (parse_nginx_access_log
      ["10.0.2.15 - - [08/Nov/2025:12:00:00 +0000] \"GET /bootstrap.py HTTP/1.1\" 200 1234 \"-\" \"Arista-ZTP/1.0\"",
       "10.0.2.15 - - [08/Nov/2025:11:00:00 +0000] \"GET /bootstrap.py HTTP/1.1\" 200 1234 \"-\" \"Arista-ZTP/1.0\""]
      [] [] 1762603200).1 "10.0.2.15").map (fun d => d.lastSeen)
      = some 1762599600)
    ∧ ((1762599600 : Int) < 1762603200) :=
  ⟨by decide, by decide, by decide⟩

/-- **C9, amended**: processing a qualifying line sets the device's
`lastSeen` to exactly that line's timestamp — an overwrite, not a maximum —
so `lastSeen` never decreases only when the lines for that IP are processed
in non-decreasing timestamp order (`d0.lastSeen ≤ t`). -/
theorem C9_amended_lastSeen_overwrite (conns : Conns) (p : LogFields)
    (t : Int) (d0 : Device) (h : lookupC conns p.ip = some d0) :
    ∃ d1, lookupC (updateDevice conns p t) p.ip = some d1
      ∧ d1.lastSeen = t
      ∧ (d0.lastSeen ≤ t → d0.lastSeen ≤ d1.lastSeen) := by
  unfold updateDevice
  rw [h]
  refine ⟨_, lookupC_insertC_self _ _ _, ?_, fun hle => ?_⟩
  · dsimp only
    split <;> rfl
  · dsimp only
    split <;> exact hle

/-- Concrete instance of the amended C9. -/
theorem C9_amended_lastSeen_overwrite_witness :
    lookupC [("1.2.3.4", (⟨"1.2.3.4", 5, 10, false, none, 5, 10, 2, "u", []⟩ : Device))]
        ((⟨"1.2.3.4", "ts", "GET", "/bootstrap.py", "HTTP/1.1", 200, "9", "-", "Arista"⟩ : LogFields)).ip
      = some ⟨"1.2.3.4", 5, 10, false, none, 5, 10, 2, "u", []⟩
    ∧ ∃ d1, lookupC (updateDevice
        [("1.2.3.4", ⟨"1.2.3.4", 5, 10, false, none, 5, 10, 2, "u", []⟩)]
        ⟨"1.2.3.4", "ts", "GET", "/bootstrap.py", "HTTP/1.1", 200, "9", "-", "Arista"⟩
        42) "1.2.3.4" = some d1
      ∧ d1.lastSeen = 42
      ∧ ((10 : Int) ≤ 42 → (10 : Int) ≤ d1.lastSeen) :=
  ⟨by decide,
    C9_amended_lastSeen_overwrite
      [("1.2.3.4", ⟨"1.2.3.4", 5, 10, false, none, 5, 10, 2, "u", []⟩)]
      ⟨"1.2.3.4", "ts", "GET", "/bootstrap.py", "HTTP/1.1", 200, "9", "-", "Arista"⟩
      42 ⟨"1.2.3.4", 5, 10, false, none, 5, 10, 2, "u", []⟩ (by decide)⟩

/-! # C4: idempotence of the Reconstructor and ledger eviction -/

theorem mem_insNew_self (l : List String) (s : String) : s ∈ insNew l s := by
  unfold insNew
  by_cases h : s ∈ l
  · rw [if_pos h]
    exact h
  · rw [if_neg h]
    exact List.mem_append_right _ (List.mem_singleton.2 rfl)

theorem mem_insNew_of_mem (l : List String) (s x : String) (h : x ∈ l) :
    x ∈ insNew l s := by
  unfold insNew
  by_cases hs : s ∈ l
  · rw [if_pos hs]
    exact h
  · rw [if_neg hs]
    exact List.mem_append_left _ h

theorem insNew_length (l : List String) (s : String) :
    (insNew l s).length ≤ l.length + 1 := by
  unfold insNew
  by_cases hs : s ∈ l
  · rw [if_pos hs]
    omega
  · rw [if_neg hs]
    simp

theorem stepLine_ledger_mono (P : List String) (acc : Conns × List String)
    (line x : String) (h : x ∈ acc.2) : x ∈ (stepLine P acc line).2 := by
  unfold stepLine
  by_cases hm : stripStr line ∈ P
  · rw [if_pos hm]
    exact mem_insNew_of_mem _ _ _ h
  · rw [if_neg hm]
    cases parseLogLine line with
    | none => exact mem_insNew_of_mem _ _ _ h
    | some p =>
      dsimp only
      by_cases he : isExcluded p = true
      · rw [if_pos he]
        exact mem_insNew_of_mem _ _ _ h
      · rw [if_neg he]
        cases (firstTok p.tsStr).bind tsParse with
        | none => exact h
        | some t => exact mem_insNew_of_mem _ _ _ h

theorem foldl_ledger_mono (P : List String) (l : List String)
    (acc : Conns × List String) (x : String) (h : x ∈ acc.2) :
    x ∈ (l.foldl (stepLine P) acc).2 := by
  induction l generalizing acc with
  | nil => exact h
  | cons y l ih =>
    rw [List.foldl_cons]
    exact ih _ (stepLine_ledger_mono P acc y x h)

theorem stepLine_marks (P : List String) (acc : Conns × List String)
    (line : String) :
    stripStr line ∈ (stepLine P acc line).2 ∨ BadTs line := by
  unfold stepLine
  by_cases hm : stripStr line ∈ P
  · rw [if_pos hm]
    exact .inl (mem_insNew_self _ _)
  · rw [if_neg hm]
    cases hp : parseLogLine line with
    | none => exact .inl (mem_insNew_self _ _)
    | some p =>
      dsimp only
      by_cases he : isExcluded p = true
      · rw [if_pos he]
        exact .inl (mem_insNew_self _ _)
      · rw [if_neg he]
        cases hts : (firstTok p.tsStr).bind tsParse with
        | none => exact .inr ⟨p, hp, Bool.not_eq_true _ ▸ he, hts⟩
        | some t => exact .inl (mem_insNew_self _ _)

theorem foldl_marks (P : List String) (l : List String)
    (acc : Conns × List String) (x : String) (hx : x ∈ l) :
    stripStr x ∈ (l.foldl (stepLine P) acc).2 ∨ BadTs x := by
  induction l generalizing acc with
  | nil => simp at hx
  | cons y l ih =>
    rw [List.foldl_cons]
    rcases List.mem_cons.1 hx with hx | hx
    · subst hx
      rcases stepLine_marks P acc x with hm | hb
      · exact .inl (foldl_ledger_mono _ _ _ _ hm)
      · exact .inr hb
    · exact ih _ hx

theorem stepLine_inert (P : List String) (acc : Conns × List String)
    (line : String) (h : stripStr line ∈ P ∨ BadTs line) :
    (stepLine P acc line).1 = acc.1 := by
  unfold stepLine
  by_cases hm : stripStr line ∈ P
  · rw [if_pos hm]
  · rw [if_neg hm]
    rcases h with h | ⟨p, hp, he, hts⟩
    · exact absurd h hm
    · rw [hp]
      dsimp only
      rw [if_neg (by simp [he]), hts]

theorem foldl_inert (P : List String) (l : List String)
    (acc : Conns × List String) (h : ∀ x ∈ l, stripStr x ∈ P ∨ BadTs x) :
    (l.foldl (stepLine P) acc).1 = acc.1 := by
  induction l generalizing acc with
  | nil => rfl
  | cons y l ih =>
    rw [List.foldl_cons]
    rw [ih _ (fun x hx => h x (List.mem_cons_of_mem _ hx))]
    exact stepLine_inert P acc y (h y (List.mem_cons_self _ _))

theorem stepLine_ledger_length (P : List String) (acc : Conns × List String)
    (line : String) :
    (stepLine P acc line).2.length ≤ acc.2.length + 1 := by
  unfold stepLine
  by_cases hm : stripStr line ∈ P
  · rw [if_pos hm]
    exact insNew_length _ _
  · rw [if_neg hm]
    cases parseLogLine line with
    | none => exact insNew_length _ _
    | some p =>
      dsimp only
      by_cases he : isExcluded p = true
      · rw [if_pos he]
        exact insNew_length _ _
      · rw [if_neg he]
        cases (firstTok p.tsStr).bind tsParse with
        | none => exact Nat.le_succ _
        | some t => exact insNew_length _ _

theorem foldl_ledger_length (P : List String) (l : List String)
    (acc : Conns × List String) :
    (l.foldl (stepLine P) acc).2.length ≤ acc.2.length + l.length := by
  induction l generalizing acc with
  | nil => simp
  | cons y l ih =>
    rw [List.foldl_cons]
    calc ((l.foldl (stepLine P) (stepLine P acc y)).2).length
        ≤ (stepLine P acc y).2.length + l.length := ih _
      _ ≤ (acc.2.length + 1) + l.length := by
          have := stepLine_ledger_length P acc y
          omega
      _ = acc.2.length + (y :: l).length := by simp; omega

theorem unionL_length (a b : List String) :
    (unionL a b).length ≤ a.length + b.length := by
  unfold unionL
  rw [List.length_append]
  have := List.length_filter_le (fun s => ¬ s ∈ a) b
  omega

theorem mem_unionL_of_right (a b : List String) (x : String) (h : x ∈ b) :
    x ∈ unionL a b := by
  unfold unionL
  by_cases ha : x ∈ a
  · exact List.mem_append_left _ ha
  · exact List.mem_append_right _ (List.mem_filter.2 ⟨h, by simpa using ha⟩)

theorem gc_idempotent (c : Conns) (now : Int) :
    gcConnections (gcConnections c now) now = gcConnections c now := by
  unfold gcConnections
  refine List.filter_eq_self.2 (fun x hx => ?_)
  exact (List.mem_filter.1 hx).2

/-- **C4, amended**: with the current time held fixed and the merged ledger
within its 2000-entry bound (`processed.length + lines.length ≤ 2000`, so no
eviction occurs), re-running the Reconstructor over an unchanged log tail,
starting from the map and ledger the first pass produced, returns the
identical DeviceConnection map: every tail line is either in the ledger
(skipped without touching any device field) or a timestamp-unparseable line
that never mutates the map. -/
theorem C4_amended_idempotence (lines : List String) (conns0 : Conns)
    (processed : List String) (now : Int)
    (H : processed.length + lines.length ≤ 2000) :
    (parse_nginx_access_log lines
        (parse_nginx_access_log lines conns0 processed now).1
        (parse_nginx_access_log lines conns0 processed now).2 now).1
      = (parse_nginx_access_log lines conns0 processed now).1 := by
  set recent := (if 1000 < lines.length then lines.drop (lines.length - 1000)
    else lines) with hrec
  have hreclen : recent.length ≤ lines.length := by
    rw [hrec]
    by_cases h1 : 1000 < lines.length
    · rw [if_pos h1, List.length_drop]
      omega
    · rw [if_neg h1]
  have hp1c : (parse_nginx_access_log lines conns0 processed now).1
      = gcConnections (recent.foldl (stepLine processed) (conns0, [])).1 now :=
    rfl
  have hlenU : (unionL processed
      (recent.foldl (stepLine processed) (conns0, [])).2).length ≤ 2000 := by
    have h1 := unionL_length processed
      (recent.foldl (stepLine processed) (conns0, [])).2
    have h2 := foldl_ledger_length processed recent (conns0, [])
    simp only [List.length_nil] at h2
    omega
  have hL1 : (parse_nginx_access_log lines conns0 processed now).2
      = (if 2000 < (unionL processed
            (recent.foldl (stepLine processed) (conns0, [])).2).length
         then (unionL processed
            (recent.foldl (stepLine processed) (conns0, [])).2).drop
            ((unionL processed
              (recent.foldl (stepLine processed) (conns0, [])).2).length - 2000)
         else unionL processed
            (recent.foldl (stepLine processed) (conns0, [])).2) := rfl
  have hL2 : (parse_nginx_access_log lines conns0 processed now).2
      = unionL processed (recent.foldl (stepLine processed) (conns0, [])).2 := by
    rw [hL1, if_neg (by omega)]
  have hmarks : ∀ x ∈ recent,
      stripStr x ∈ (parse_nginx_access_log lines conns0 processed now).2
        ∨ BadTs x := by
    intro x hx
    rcases foldl_marks processed recent (conns0, []) x hx with hm | hb
    · left
      rw [hL2]
      exact mem_unionL_of_right _ _ _ hm
    · exact .inr hb
  have hp2 : (parse_nginx_access_log lines
        (parse_nginx_access_log lines conns0 processed now).1
        (parse_nginx_access_log lines conns0 processed now).2 now).1
      = gcConnections (recent.foldl
          (stepLine (parse_nginx_access_log lines conns0 processed now).2)
          ((parse_nginx_access_log lines conns0 processed now).1, [])).1 now :=
    rfl
  rw [hp2, foldl_inert _ _ _ hmarks, hp1c, gc_idempotent]

/-- Concrete instance of the amended C4: one line, empty initial state. -/
theorem C4_amended_idempotence_witness :
    (([] : List String).length + (["10.0.2.15 - - [08/Nov/2025:12:00:00 +0000] \"GET /bootstrap.py HTTP/1.1\" 200 1234 \"-\" \"Arista-ZTP/1.0\""] : List String).length ≤ 2000)
    ∧ (parse_nginx_access_log
        ["10.0.2.15 - - [08/Nov/2025:12:00:00 +0000] \"GET /bootstrap.py HTTP/1.1\" 200 1234 \"-\" \"Arista-ZTP/1.0\""]
        (parse_nginx_access_log
          ["10.0.2.15 - - [08/Nov/2025:12:00:00 +0000] \"GET /bootstrap.py HTTP/1.1\" 200 1234 \"-\" \"Arista-ZTP/1.0\""]
          [] [] 1762603200).1
        (parse_nginx_access_log
          ["10.0.2.15 - - [08/Nov/2025:12:00:00 +0000] \"GET /bootstrap.py HTTP/1.1\" 200 1234 \"-\" \"Arista-ZTP/1.0\""]
          [] [] 1762603200).2 1762603200).1
      = (parse_nginx_access_log
          ["10.0.2.15 - - [08/Nov/2025:12:00:00 +0000] \"GET /bootstrap.py HTTP/1.1\" 200 1234 \"-\" \"Arista-ZTP/1.0\""]
          [] [] 1762603200).1 :=
  ⟨by decide,
    C4_amended_idempotence _ [] [] 1762603200 (by decide)⟩

/-- Unfolding equation for `parse_nginx_access_log`, with the tail window
given as an explicit list so that nothing forces evaluation of large
concrete inputs. -/
theorem parse_unfold (lines : List String) (c0 : Conns) (P : List String)
    (now : Int) (recent : List String)
    (hr : (if 1000 < lines.length then lines.drop (lines.length - 1000)
      else lines) = recent) :
    parse_nginx_access_log lines c0 P now
      = (gcConnections (recent.foldl (stepLine P) (c0, [])).1 now,
         if 2000 < (unionL P (recent.foldl (stepLine P) (c0, [])).2).length
         then (unionL P (recent.foldl (stepLine P) (c0, [])).2).drop
              ((unionL P (recent.foldl (stepLine P) (c0, [])).2).length - 2000)
         else unionL P (recent.foldl (stepLine P) (c0, [])).2) := by
  subst hr
  rfl

theorem c4strip : stripStr c4line = c4line := by decide

theorem c4notmem : ¬ c4line ∈ c4junk := by
  intro h
  have h2 : ∃ i, i < 2000 ∧ "x" ++ toString i = c4line := by
    simpa [c4junk] using h
  rcases h2 with ⟨i, _, hEq⟩
  have hd0 : ('x' :: (toString i).data : List Char)
      = ("x" ++ toString i).data := rfl
  have hd : ('x' :: (toString i).data : List Char) = c4line.data := by
    rw [hd0, hEq]
  have hhead := congrArg List.head? hd
  have hc : c4line.data.head? = some '1' := rfl
  rw [hc] at hhead
  simp only [List.head?_cons, Option.some.injEq] at hhead
  exact absurd hhead (by decide)

/-- First pass: the single tail line is already in the (2001-entry) ledger,
so the map stays empty; merging pushes the ledger to 2001 entries and the
truncation to 2000 evicts precisely that tail line. -/
theorem c4run1 :
    parse_nginx_access_log [c4line] [] (c4line :: c4junk) 1762603200
      = ([], c4junk) := by
  have hfold : ([c4line] : List String).foldl
      (stepLine (c4line :: c4junk)) (([] : Conns), [])
      = (([] : Conns), [c4line]) := by
    rw [List.foldl_cons, List.foldl_nil]
    unfold stepLine
    dsimp only
    rw [c4strip, if_pos (List.mem_cons_self _ _)]
    rfl
  have hunion : unionL (c4line :: c4junk) [c4line] = c4line :: c4junk := by
    unfold unionL
    have hm : c4line ∈ c4line :: c4junk := List.mem_cons_self _ _
    have hf : ([c4line] : List String).filter
        (fun s => ¬ s ∈ (c4line :: c4junk)) = [] := by
      simp [hm]
    rw [hf, List.append_nil]
  have hlen : (c4line :: c4junk).length = 2001 := by
    rw [List.length_cons]
    unfold c4junk
    rw [List.length_map, List.length_range]
  rw [parse_unfold [c4line] [] (c4line :: c4junk) 1762603200 [c4line] (by decide)]
  rw [hfold]
  dsimp only
  rw [hunion, hlen]
  rw [if_pos (by omega)]
  rfl

/-- **C4, counterexample**: the claim says a second Reconstructor pass over
an unchanged tail, starting from the first pass's map and ledger, yields an
identical map.  With a 2001-entry on-disk ledger containing the tail line,
the first pass skips the line (map stays empty) but the 2000-entry
truncation evicts the line from the persisted ledger, so the second pass,
started from exactly the first pass's outputs, re-counts it: the map gains
a device with `totalRequests = 1`. -/
theorem C4_counterexample :
    parse_nginx_access_log [c4line] [] (c4line :: c4junk) 1762603200
      = ([], c4junk)
    ∧ (parse_nginx_access_log [c4line]
        (parse_nginx_access_log [c4line] [] (c4line :: c4junk) 1762603200).1
        (parse_nginx_access_log [c4line] [] (c4line :: c4junk) 1762603200).2
        1762603200).1
      = [("10.0.2.15", c4dev)]
    ∧ ([("10.0.2.15", c4dev)] : Conns) ≠ [] := by
  refine ⟨c4run1, ?_, by simp⟩
  rw [c4run1]
  dsimp only
  rw [parse_unfold [c4line] [] c4junk 1762603200 [c4line] (by decide)]
  dsimp only
  have hfold2 : ([c4line] : List String).foldl (stepLine c4junk)
      (([] : Conns), []) = ([("10.0.2.15", c4dev)], [c4line]) := by
    rw [List.foldl_cons, List.foldl_nil]
    unfold stepLine
    dsimp only
    rw [c4strip, if_neg c4notmem]
    rfl
  rw [hfold2]
  rfl

/-! # C1/C6: activation sequences and the listing -/

theorem prefB_append_self (a b : List Char) : prefB a (a ++ b) = true := by
  induction a with
  | nil => rfl
  | cons c cs ih => simp [prefB, ih]

theorem startsW_append (a b : String) : startsW (a ++ b) a = true := by
  unfold startsW
  have hd : (a ++ b).data = a.data ++ b.data := rfl
  rw [hd]
  exact prefB_append_self _ _

theorem backupNamed_backupName (m : Nat) :
    backupNamed (backupName m) = true := by
  unfold backupNamed backupName
  have h : "bootstrap_backup_" ++ toString m ++ ".py"
      = "bootstrap_backup_" ++ (toString m ++ ".py") := by
    rw [String.append_assoc]
  rw [h]
  exact startsW_append _ _

theorem pointer_ne_backupName (m : Nat) : "bootstrap.py" ≠ backupName m := by
  intro h
  have h1 := backupNamed_backupName m
  rw [← h] at h1
  exact absurd h1 (by decide)

theorem sanitize_matches (n s : String) (h : sanitize_filename n = some s) :
    matchesScriptRe s = true := by
  unfold sanitize_filename at h
  dsimp only at h
  split_ifs at h with h0 h1 h2
  rw [← Option.some.inj h]
  exact h1

theorem validate_matches (n : String)
    (h : validate_filename_for_api n = some n) : matchesScriptRe n = true := by
  unfold validate_filename_for_api at h
  by_cases h0 : n = ""
  · simp [h0] at h
  · by_cases h1 : endsW n ".py" = true
    · simp only [h0, if_false, h1, not_true, if_false] at h
      exact sanitize_matches n n h
    · simp [h0, h1] at h

theorem matches_scriptGlob (n : String) (h : matchesScriptRe n = true) :
    scriptGlob n = true := by
  unfold matchesScriptRe at h
  unfold scriptGlob
  simp only [Bool.and_eq_true] at h ⊢
  exact ⟨⟨h.1.1.1, h.1.1.2⟩, h.1.2⟩

theorem validate_scriptGlob (n : String)
    (h : validate_filename_for_api n = some n) : scriptGlob n = true :=
  matches_scriptGlob n (validate_matches n h)

/-- Every successful allowed activation preserves the pointer invariant. -/
theorem good_step (fs fs' : FS) (n : String) (hg : Good fs) (ha : Allowed fs n)
    (hs : set_active_script fs n = some fs') : Good fs' := by
  obtain ⟨hwf, r, m, c, hres, hlr, hlist⟩ := hg
  obtain ⟨hval, hcase⟩ := ha
  unfold set_active_script at hs
  rw [hval] at hs
  try dsimp only at hs
  by_cases hc : (fsExists fs n && endsW n ".py") = true
  swap
  · rw [if_pos (by simpa using hc)] at hs
    exact absurd hs (by simp)
  rw [if_neg (by simpa using hc)] at hs
  by_cases hb : n = "bootstrap.py"
  · subst hb
    cases hl : fs.lookup "bootstrap.py" with
    | none =>
      rw [hl] at hs
      exact absurd hs (by simp)
    | some e =>
      cases e with
      | regular m2 c2 =>
        rw [hl] at hs
        exact absurd hs (by simp)
      | symlink t =>
        rw [hl] at hs
        try dsimp only at hs
        cases hr2 : resolveName fs "bootstrap.py" with
        | none =>
          rw [hr2] at hs
          exact absurd hs (by simp)
        | some src =>
          rw [hr2] at hs
          try dsimp only at hs
          cases hsrc : fs.lookup src with
          | none =>
            rw [hsrc] at hs
            exact absurd hs (by simp)
          | some e2 =>
            cases e2 with
            | symlink t2 =>
              rw [hsrc] at hs
              exact absurd hs (by simp)
            | regular ms cs =>
              rw [hsrc] at hs
              try dsimp only at hs
              rw [← Option.some.inj hs]
              refine ⟨WF_insert _ _ _ (WF_erase _ _ hwf), "bootstrap.py",
                ms, cs, ?_, lookup_insert_self _ _ _, by decide⟩
              exact resolveName_regular _ _ _ _ (lookup_insert_self _ _ _)
  · rw [if_neg hb] at hs
    rcases hcase with hbad | ⟨⟨mn, cn, hln⟩, hnb⟩
    · exact absurd hbad hb
    have hglob : scriptGlob n = true := validate_scriptGlob n hval
    have hlstn : listable n = true := by
      unfold listable
      simp [hglob, hnb]
    try dsimp only at hs
    cases hl : fs.lookup "bootstrap.py" with
    | some e =>
      cases e with
      | symlink t =>
        by_cases hpe : fsExists fs "bootstrap.py" = true
        · have hc1 : (fsExists fs "bootstrap.py"
              && isSymlinkB fs "bootstrap.py") = true := by
            simp [hpe, isSymlinkB, hl]
          rw [if_pos hc1] at hs
          rw [lookup_erase_self] at hs
          try dsimp only at hs
          rw [← Option.some.inj hs]
          have hlkn : FS.lookup ((fs.erase "bootstrap.py").insert
              "bootstrap.py" (.symlink n)) n = some (.regular mn cn) := by
            rw [lookup_insert_of_ne _ _ _ _ hb, lookup_erase_of_ne _ _ _ hb]
            exact hln
          exact ⟨WF_insert _ _ _ (WF_erase _ _ hwf), n, mn, cn,
            resolveName_symlink_regular _ _ _ _ _
              (lookup_insert_self _ _ _) hlkn, hlkn, hlstn⟩
        · have hc1 : ¬ ((fsExists fs "bootstrap.py"
              && isSymlinkB fs "bootstrap.py") = true) := by
            rw [Bool.and_eq_true]
            intro hcc
            exact hpe hcc.1
          rw [if_neg hc1] at hs
          rw [if_neg (by simpa using hpe)] at hs
          rw [hl] at hs
          exact absurd hs (by simp)
      | regular M cM =>
        have hsym : isSymlinkB fs "bootstrap.py" = false := by
          simp [isSymlinkB, hl]
        have hc1 : ¬ ((fsExists fs "bootstrap.py"
            && isSymlinkB fs "bootstrap.py") = true) := by
          rw [Bool.and_eq_true]
          intro hcc
          rw [hsym] at hcc
          exact Bool.false_ne_true hcc.2
        rw [if_neg hc1] at hs
        rw [if_pos (fsExists_regular fs _ _ _ hl)] at hs
        rw [hl] at hs
        try dsimp only at hs
        have hlp : FS.lookup (cleanup_old_backups
            (fs.ren "bootstrap.py" (backupName M))) "bootstrap.py" = none := by
          rw [cleanup_lookup_nonbackup _ _ (by decide)]
          unfold FS.ren
          rw [hl]
          rw [lookup_insert_of_ne _ _ _ _ (pointer_ne_backupName M),
            lookup_erase_self]
        rw [hlp] at hs
        try dsimp only at hs
        rw [← Option.some.inj hs]
        have hne_bkp : n ≠ backupName M := by
          intro hh
          have h2 := backupNamed_backupName M
          rw [← hh, hnb] at h2
          exact Bool.false_ne_true h2
        have hlkn : FS.lookup ((cleanup_old_backups
            (fs.ren "bootstrap.py" (backupName M))).insert
            "bootstrap.py" (.symlink n)) n = some (.regular mn cn) := by
          rw [lookup_insert_of_ne _ _ _ _ hb,
            cleanup_lookup_nonbackup _ _ hnb,
            lookup_ren_of_ne _ _ _ _ hb hne_bkp]
          exact hln
        exact ⟨WF_insert _ _ _ (WF_cleanup _ (WF_ren _ _ _ hwf)), n, mn, cn,
          resolveName_symlink_regular _ _ _ _ _
            (lookup_insert_self _ _ _) hlkn, hlkn, hlstn⟩
    | none =>
      have hsym : isSymlinkB fs "bootstrap.py" = false := by
        simp [isSymlinkB, hl]
      have hc1 : ¬ ((fsExists fs "bootstrap.py"
          && isSymlinkB fs "bootstrap.py") = true) := by
        rw [Bool.and_eq_true]
        intro hcc
        rw [hsym] at hcc
        exact Bool.false_ne_true hcc.2
      rw [if_neg hc1] at hs
      rw [if_neg (by simp [fsExists_missing fs _ hl])] at hs
      rw [hl] at hs
      try dsimp only at hs
      rw [← Option.some.inj hs]
      have hlkn : FS.lookup (fs.insert "bootstrap.py" (.symlink n)) n
          = some (.regular mn cn) := by
        rw [lookup_insert_of_ne _ _ _ _ hb]
        exact hln
      exact ⟨WF_insert _ _ _ hwf, n, mn, cn,
        resolveName_symlink_regular _ _ _ _ _
          (lookup_insert_self _ _ _) hlkn, hlkn, hlstn⟩

theorem activeScript_of_good (fs : FS) (r : String) (m : Nat) (c : String)
    (hres : resolveName fs "bootstrap.py" = some r)
    (hlr : fs.lookup r = some (.regular m c)) :
    activeScript fs = some r := by
  have hex : fsExists fs "bootstrap.py" = true := by
    unfold fsExists
    rw [hres]
    simp [hlr]
  unfold activeScript
  rw [if_pos hex]
  cases hl : fs.lookup "bootstrap.py" with
  | none =>
    have h2 := resolveName_missing fs _ hl
    rw [hres] at h2
    have h3 := Option.some.inj h2
    rw [h3] at hlr
    rw [hl] at hlr
    exact Option.noConfusion hlr
  | some e =>
    cases e with
    | regular m2 c2 =>
      have hsym : isSymlinkB fs "bootstrap.py" = false := by
        simp [isSymlinkB, hl]
      rw [if_neg (by simp [hsym])]
      have h2 := resolveName_regular fs _ _ _ hl
      rw [hres] at h2
      rw [Option.some.inj h2]
    | symlink t =>
      have hsym : isSymlinkB fs "bootstrap.py" = true := by
        simp [isSymlinkB, hl]
      rw [if_pos hsym, hres]

theorem activeResolvedName_of_good (fs : FS) (r : String) (m : Nat) (c : String)
    (hres : resolveName fs "bootstrap.py" = some r)
    (hlr : fs.lookup r = some (.regular m c)) :
    activeResolvedName fs = some r := by
  unfold activeResolvedName
  rw [activeScript_of_good fs r m c hres hlr]
  dsimp only
  rw [if_pos (fsExists_regular fs r m c hlr)]
  exact resolveName_regular fs r m c hlr

theorem rowOf_some_elim (fs : FS) (aS arn : Option String) (n : String)
    (e : Entry) (row : Row) (h : rowOf fs aS arn n e = some row) :
    row.name = n ∧ row.active = rowActiveFlag arn aS n := by
  unfold rowOf at h
  by_cases h1 : scriptGlob n = true
  swap
  · rw [if_pos (by simpa using h1)] at h
    exact absurd h (by simp)
  rw [if_neg (by simpa using h1)] at h
  by_cases h2 : backupNamed n = true
  · rw [if_pos h2] at h
    exact absurd h (by simp)
  rw [if_neg h2] at h
  dsimp only at h
  split at h
  · exact absurd h (by simp)
  · split at h
    · exact absurd h (by simp)
    · rw [← Option.some.inj h]
      exact ⟨rfl, rfl⟩

theorem rowOf_regular (fs : FS) (aS arn : Option String) (n : String)
    (m : Nat) (c : String) (hg : scriptGlob n = true)
    (hb : backupNamed n = false) (hl : fs.lookup n = some (.regular m c)) :
    rowOf fs aS arn n (.regular m c)
      = some ⟨n, c.data.length, m, rowActiveFlag arn aS n⟩ := by
  unfold rowOf
  rw [if_neg (by simp [hg]), if_neg (by simp [hb])]
  dsimp only
  rw [if_neg (by simp)]
  rw [statEntry_regular fs n m c hl]

theorem rowOf_symlink (fs : FS) (aS arn : Option String) (n t : String)
    (hg : scriptGlob n = true) (hb : backupNamed n = false)
    (r' : String) (hr : resolveName fs n = some r') (hne : ¬ r' = n)
    (m : Nat) (c : String) (hlr : fs.lookup r' = some (.regular m c)) :
    rowOf fs aS arn n (.symlink t)
      = some ⟨n, c.data.length, m, rowActiveFlag arn aS n⟩ := by
  unfold rowOf
  rw [if_neg (by simp [hg]), if_neg (by simp [hb])]
  dsimp only
  rw [hr]
  dsimp only
  rw [if_neg (by simp [hne])]
  have hst : statEntry fs n = some (m, c.data.length) := by
    unfold statEntry
    rw [hr]
    simp [hlr]
  rw [hst]

theorem insRow_perm (x : Row) (l : List Row) :
    List.Perm (insRow x l) (x :: l) := by
  induction l with
  | nil => exact List.Perm.refl _
  | cons y ys ih =>
    by_cases h : rowKeyLe x y
    · simp [insRow, h]
    · simp only [insRow, h, if_false]
      exact (ih.cons y).trans (List.Perm.swap x y ys)

theorem sortRows_perm (l : List Row) : List.Perm (sortRows l) l := by
  induction l with
  | nil => exact List.Perm.refl _
  | cons x xs ih => exact (insRow_perm x (sortRows xs)).trans (ih.cons x)

/-- The active rows of the main listing loop: exactly the row of the
resolved name `r`, provided its key occurs (uniquely) in the scanned list. -/
theorem rowsActive_aux (fs : FS) (r : String) (mr : Nat) (cr : String)
    (hlr : fs.lookup r = some (.regular mr cr))
    (hgr : scriptGlob r = true) (hbr : backupNamed r = false)
    (l : List (String × Entry)) (hnd : (l.map Prod.fst).Nodup) :
    ((r, Entry.regular mr cr) ∈ l →
      ((l.filterMap (fun p => rowOf fs (some r) (some r) p.1 p.2)).filter
        (·.active)).map (·.name) = [r])
    ∧ (r ∉ l.map Prod.fst →
      ((l.filterMap (fun p => rowOf fs (some r) (some r) p.1 p.2)).filter
        (·.active)).map (·.name) = []) := by
  induction l with
  | nil => exact ⟨fun h => absurd h (by simp), fun _ => rfl⟩
  | cons p l ih =>
    simp only [List.map_cons, List.nodup_cons] at hnd
    obtain ⟨hnd1, hnd2⟩ := hnd
    have ih2 := ih hnd2
    constructor
    · intro hmem
      rcases List.mem_cons.1 hmem with heq | hmem2
      · have hp1 : p.1 = r := by rw [← heq]
        have hf : rowOf fs (some r) (some r) p.1 p.2
            = some ⟨r, cr.data.length, mr, true⟩ := by
          rw [← heq]
          dsimp only
          rw [rowOf_regular fs (some r) (some r) r mr cr hgr hbr hlr]
          simp [rowActiveFlag]
        rw [List.filterMap_cons, hf]
        rw [List.filter_cons_of_pos (by simp)]
        rw [List.map_cons]
        rw [ih2.2 (by rw [← hp1]; exact hnd1)]
      · have hrk : r ∈ l.map Prod.fst :=
          List.mem_map.2 ⟨(r, Entry.regular mr cr), hmem2, rfl⟩
        have hp1 : ¬ p.1 = r := fun hh => hnd1 (hh ▸ hrk)
        rw [List.filterMap_cons]
        cases hf : rowOf fs (some r) (some r) p.1 p.2 with
        | none => exact ih2.1 hmem2
        | some row =>
          have hre := rowOf_some_elim fs _ _ _ _ _ hf
          have hact : row.active = false := by
            rw [hre.2]
            simp [rowActiveFlag, hp1]
          rw [List.filter_cons_of_neg (by simp [hact])]
          exact ih2.1 hmem2
    · intro hnr
      simp only [List.map_cons, List.mem_cons, not_or] at hnr
      obtain ⟨hnr1, hnr2⟩ := hnr
      rw [List.filterMap_cons]
      cases hf : rowOf fs (some r) (some r) p.1 p.2 with
      | none => exact ih2.2 hnr2
      | some row =>
        have hre := rowOf_some_elim fs _ _ _ _ _ hf
        have hact : row.active = false := by
          rw [hre.2]
          have : ¬ p.1 = r := fun hh => hnr1 hh.symm
          simp [rowActiveFlag, this]
        rw [List.filter_cons_of_neg (by simp [hact])]
        exact ih2.2 hnr2

/-- Under the pointer invariant the listing flags exactly one row active:
the one named by the pointer's resolution. -/
theorem good_activeNames (fs : FS) (hg : Good fs) :
    ∃ r, resolveName fs "bootstrap.py" = some r ∧ activeNames fs = [r] := by
  obtain ⟨hwf, r, m, c, hres, hlr, hlist⟩ := hg
  have hl2 := hlist
  unfold listable at hl2
  rw [Bool.and_eq_true] at hl2
  have hgr : scriptGlob r = true := hl2.1
  have hbr : backupNamed r = false := by
    simpa using hl2.2
  refine ⟨r, hres, ?_⟩
  have haS := activeScript_of_good fs r m c hres hlr
  have harn := activeResolvedName_of_good fs r m c hres hlr
  have hexrow : ∃ row ∈ fs.filterMap
      (fun p => rowOf fs (some r) (some r) p.1 p.2),
      row.name = "bootstrap.py" := by
    cases hl : fs.lookup "bootstrap.py" with
    | none =>
      have h2 := resolveName_missing fs _ hl
      rw [hres] at h2
      have h3 := Option.some.inj h2
      rw [h3, hl] at hlr
      exact Option.noConfusion hlr
    | some e =>
      cases e with
      | regular m2 c2 =>
        have h2 := resolveName_regular fs _ _ _ hl
        rw [hres] at h2
        have h3 := Option.some.inj h2
        exact ⟨⟨r, c.data.length, m, rowActiveFlag (some r) (some r) r⟩,
          List.mem_filterMap.2 ⟨(r, .regular m c), mem_of_lookup _ _ _ hlr,
            rowOf_regular fs (some r) (some r) r m c hgr hbr hlr⟩, h3⟩
      | symlink t =>
        have hne : ¬ r = "bootstrap.py" := by
          intro hh
          rw [hh, hl] at hlr
          exact Entry.noConfusion (Option.some.inj hlr)
        exact ⟨⟨"bootstrap.py", c.data.length, m,
            rowActiveFlag (some r) (some r) "bootstrap.py"⟩,
          List.mem_filterMap.2 ⟨("bootstrap.py", .symlink t),
            mem_of_lookup _ _ _ hl,
            rowOf_symlink fs (some r) (some r) "bootstrap.py" t (by decide)
              (by decide) r hres hne m c hlr⟩, rfl⟩
  have hall : (fs.filterMap
      (fun p => rowOf fs (some r) (some r) p.1 p.2)).all
      (fun row => ¬ row.name = "bootstrap.py") = false := by
    obtain ⟨row, hmem, hname⟩ := hexrow
    rcases Bool.eq_false_or_eq_true ((fs.filterMap
        (fun p => rowOf fs (some r) (some r) p.1 p.2)).all
        (fun row => ¬ row.name = "bootstrap.py")) with hft | hft
    · have h4 := List.all_eq_true.1 hft row hmem
      simp [hname] at h4
    · exact hft
  unfold activeNames list_bootstrap_scripts
  rw [haS, harn]
  dsimp only
  rw [if_neg (by
    rw [Bool.and_eq_true]
    intro hcc
    rw [hall] at hcc
    exact Bool.false_ne_true hcc.2)]
  have hmain := (rowsActive_aux fs r m c hlr hgr hbr fs hwf).1
    (mem_of_lookup _ _ _ hlr)
  have hperm := ((sortRows_perm (fs.filterMap
      (fun p => rowOf fs (some r) (some r) p.1 p.2))).filter
      (·.active)).map (·.name)
  rw [hmain] at hperm
  exact List.perm_singleton.1 hperm

/-- **C1, counterexample**: the claim quantifies over *any* sequence of
successful Activate calls from a registry whose pointer is a regular file.
Activating the backup file `bootstrap_backup_1.py` (its name passes the
`bootstrap[a-zA-Z0-9_.-]*\.py` validation) succeeds, yet the listing skips
backup-named files, so `List()` then shows *zero* rows with `active=true`. -/
theorem C1_counterexample :
    FS.lookup [("bootstrap.py", Entry.regular 1000 "old"),
        ("bootstrap_backup_1.py", Entry.regular 5 "b")] "bootstrap.py"
      = some (.regular 1000 "old")
    ∧ (set_active_script [("bootstrap.py", Entry.regular 1000 "old"),
        ("bootstrap_backup_1.py", Entry.regular 5 "b")]
        "bootstrap_backup_1.py").isSome = true
    ∧ (set_active_script [("bootstrap.py", Entry.regular 1000 "old"),
        ("bootstrap_backup_1.py", Entry.regular 5 "b")]
        "bootstrap_backup_1.py").map activeNames = some [] :=
  ⟨by decide, by decide, by decide⟩

/-- **C1, amended**: after any sequence of successful Activate calls on
*allowed* names — validated names that are either `bootstrap.py` itself or
existing regular files not named like backups — starting from a registry
whose pointer resolves to a listed regular script, `List()` flags exactly
one row active, and its name is the name the pointer resolves to. -/
theorem C1_amended_unique_active (fs0 fs1 : FS) (h0 : Good fs0)
    (hr : ReachesA fs0 fs1) :
    ∃ r, resolveName fs1 "bootstrap.py" = some r ∧ activeNames fs1 = [r] := by
  have hgood : Good fs1 := by
    induction hr with
    | refl => exact h0
    | step fs fs' n hreach ha hs ih => exact good_step fs fs' n ih ha hs
  exact good_activeNames fs1 hgood

/-- Concrete instance of the amended C1: one Activate of `bootstrap2.py`
from a regular-file pointer. -/
theorem C1_amended_unique_active_witness :
    Good [("bootstrap.py", Entry.regular 1000 "old"),
      ("bootstrap2.py", Entry.regular 2000 "new")]
    ∧ ∃ r, resolveName [("bootstrap2.py", Entry.regular 2000 "new"),
        ("bootstrap_backup_1000.py", Entry.regular 1000 "old"),
        ("bootstrap.py", Entry.symlink "bootstrap2.py")] "bootstrap.py"
      = some r
      ∧ activeNames [("bootstrap2.py", Entry.regular 2000 "new"),
        ("bootstrap_backup_1000.py", Entry.regular 1000 "old"),
        ("bootstrap.py", Entry.symlink "bootstrap2.py")] = [r] :=
  ⟨⟨by decide, "bootstrap.py", 1000, "old", by decide, by decide, by decide⟩,
    C1_amended_unique_active
      [("bootstrap.py", Entry.regular 1000 "old"),
        ("bootstrap2.py", Entry.regular 2000 "new")]
      [("bootstrap2.py", Entry.regular 2000 "new"),
        ("bootstrap_backup_1000.py", Entry.regular 1000 "old"),
        ("bootstrap.py", Entry.symlink "bootstrap2.py")]
      ⟨by decide, "bootstrap.py", 1000, "old", by decide, by decide, by decide⟩
      (ReachesA.step _ _ _ "bootstrap2.py" (ReachesA.refl _)
        ⟨by decide, Or.inr ⟨⟨2000, "new", by decide⟩, by decide⟩⟩
        (by decide))⟩

/-- **C6, counterexample**: the claim says that after `Activate(name)` with
a regular-file pointer, `List()` marks `name` as the active script.  When
`name` is itself a symlink (`bootstrap3.py -> bootstrap2.py`) the call
succeeds and performs the backup/symlink dance, but the listing marks the
resolved *target* `bootstrap2.py` active, not `name`. -/
theorem C6_counterexample :
    FS.lookup [("bootstrap.py", Entry.regular 1000 "old"),
        ("bootstrap2.py", Entry.regular 2 "s2"),
        ("bootstrap3.py", Entry.symlink "bootstrap2.py")] "bootstrap.py"
      = some (.regular 1000 "old")
    ∧ (set_active_script [("bootstrap.py", Entry.regular 1000 "old"),
        ("bootstrap2.py", Entry.regular 2 "s2"),
        ("bootstrap3.py", Entry.symlink "bootstrap2.py")]
        "bootstrap3.py").map activeNames = some ["bootstrap2.py"]
    ∧ ¬ ("bootstrap3.py" : String) = "bootstrap2.py" :=
  ⟨by decide, by decide, by decide⟩

/-- **C6, amended**: `Activate(n)` for a validated, regular (non-symlink),
non-backup-named script `n ≠ bootstrap.py`, with the pointer currently a
regular file of mtime `M`, renames the pointer content to
`bootstrap_backup_<M>.py`, runs retention pruning, replaces the pointer with
a symlink to `n`, and a subsequent `List()` marks `n` (alone) active. -/
theorem C6_amended_activate (fs : FS) (n : String) (M mn : Nat)
    (c cn : String) (hwf : fs.WF)
    (hp : fs.lookup "bootstrap.py" = some (.regular M c))
    (hval : validate_filename_for_api n = some n)
    (hb : ¬ n = "bootstrap.py")
    (hn : fs.lookup n = some (.regular mn cn))
    (hnb : backupNamed n = false) :
    set_active_script fs n
      = some ((cleanup_old_backups (fs.ren "bootstrap.py"
          (backupName M))).insert "bootstrap.py" (.symlink n))
    ∧ (fs.ren "bootstrap.py" (backupName M)).lookup (backupName M)
      = some (.regular M c)
    ∧ activeNames ((cleanup_old_backups (fs.ren "bootstrap.py"
        (backupName M))).insert "bootstrap.py" (.symlink n)) = [n] := by
  have hpy : endsW n ".py" = true := validate_endsW n n hval
  have hex : fsExists fs n = true := fsExists_regular fs n mn cn hn
  have hlp : FS.lookup (cleanup_old_backups
      (fs.ren "bootstrap.py" (backupName M))) "bootstrap.py" = none := by
    rw [cleanup_lookup_nonbackup _ _ (by decide)]
    unfold FS.ren
    rw [hp]
    rw [lookup_insert_of_ne _ _ _ _ (pointer_ne_backupName M),
      lookup_erase_self]
  have hne_bkp : n ≠ backupName M := by
    intro hh
    have h2 := backupNamed_backupName M
    rw [← hh, hnb] at h2
    exact Bool.false_ne_true h2
  have hlkn : FS.lookup ((cleanup_old_backups (fs.ren "bootstrap.py"
      (backupName M))).insert "bootstrap.py" (.symlink n)) n
      = some (.regular mn cn) := by
    rw [lookup_insert_of_ne _ _ _ _ hb, cleanup_lookup_nonbackup _ _ hnb,
      lookup_ren_of_ne _ _ _ _ hb hne_bkp]
    exact hn
  have hres2 : resolveName ((cleanup_old_backups (fs.ren "bootstrap.py"
      (backupName M))).insert "bootstrap.py" (.symlink n)) "bootstrap.py"
      = some n :=
    resolveName_symlink_regular _ _ _ _ _ (lookup_insert_self _ _ _) hlkn
  refine ⟨?_, ?_, ?_⟩
  · unfold set_active_script
    rw [hval]
    dsimp only
    rw [if_neg (by simp [hex, hpy])]
    rw [if_neg hb]
    try dsimp only
    have hsym : isSymlinkB fs "bootstrap.py" = false := by
      simp [isSymlinkB, hp]
    rw [if_neg (by
      rw [Bool.and_eq_true]
      intro hcc
      rw [hsym] at hcc
      exact Bool.false_ne_true hcc.2)]
    rw [if_pos (fsExists_regular fs _ _ _ hp)]
    rw [hp]
    dsimp only
    rw [hlp]
  · unfold FS.ren
    rw [hp]
    exact lookup_insert_self _ _ _
  · have hlstn : listable n = true := by
      unfold listable
      simp [validate_scriptGlob n hval, hnb]
    have hgood : Good ((cleanup_old_backups (fs.ren "bootstrap.py"
        (backupName M))).insert "bootstrap.py" (.symlink n)) :=
      ⟨WF_insert _ _ _ (WF_cleanup _ (WF_ren _ _ _ hwf)), n, mn, cn,
        hres2, hlkn, hlstn⟩
    obtain ⟨r, hr1, hr2⟩ := good_activeNames _ hgood
    rw [hres2] at hr1
    obtain rfl : n = r := Option.some.inj hr1
    exact hr2

/-- Concrete instance of the amended C6. -/
theorem C6_amended_activate_witness :
    (FS.WF [("bootstrap.py", Entry.regular 1000 "old"),
        ("bootstrap2.py", Entry.regular 2000 "new")]
      ∧ FS.lookup [("bootstrap.py", Entry.regular 1000 "old"),
          ("bootstrap2.py", Entry.regular 2000 "new")] "bootstrap.py"
        = some (.regular 1000 "old")
      ∧ validate_filename_for_api "bootstrap2.py" = some "bootstrap2.py"
      ∧ FS.lookup [("bootstrap.py", Entry.regular 1000 "old"),
          ("bootstrap2.py", Entry.regular 2000 "new")] "bootstrap2.py"
        = some (.regular 2000 "new")
      ∧ backupNamed "bootstrap2.py" = false)
    ∧ (set_active_script [("bootstrap.py", Entry.regular 1000 "old"),
          ("bootstrap2.py", Entry.regular 2000 "new")] "bootstrap2.py"
        = some ((cleanup_old_backups (FS.ren
            [("bootstrap.py", Entry.regular 1000 "old"),
              ("bootstrap2.py", Entry.regular 2000 "new")]
            "bootstrap.py" (backupName 1000))).insert "bootstrap.py"
            (.symlink "bootstrap2.py"))
      ∧ (FS.ren [("bootstrap.py", Entry.regular 1000 "old"),
            ("bootstrap2.py", Entry.regular 2000 "new")]
          "bootstrap.py" (backupName 1000)).lookup (backupName 1000)
        = some (.regular 1000 "old")
      ∧ activeNames ((cleanup_old_backups (FS.ren
            [("bootstrap.py", Entry.regular 1000 "old"),
              ("bootstrap2.py", Entry.regular 2000 "new")]
            "bootstrap.py" (backupName 1000))).insert "bootstrap.py"
            (.symlink "bootstrap2.py")) = ["bootstrap2.py"]) :=
  ⟨⟨by decide, by decide, by decide, by decide, by decide⟩,
    C6_amended_activate
      [("bootstrap.py", Entry.regular 1000 "old"),
        ("bootstrap2.py", Entry.regular 2000 "new")]
      "bootstrap2.py" 1000 2000 "old" "new"
      (by decide) (by decide) (by decide) (by decide) (by decide) (by decide)⟩

end ZtpBootstrap
